import Mathlib

set_option maxRecDepth 20000
set_option maxHeartbeats 1000000

/-!
Verification development for the document/diagram processing core:
a shallow embedding of the Mermaid-diagram validator, parser and mutators
(`utils/workflowGenerator.js`, `utils/workflowEditor.js`), of the metrics
module (`utils/metricsProcessor.js`) and of the HTML document editor
(`utils/documentEditor.js`), together with theorems settling the spec's
testable properties.

Text is embedded as `List Char` (JS strings are sequences of UTF-16 code
units; every input considered here is plain text, so a character list is a
faithful model).  Each JavaScript regular-expression operation is embedded
as a bespoke scanner whose doc comment quotes the regex it implements;
left-to-right scanning with maximal munch reproduces the JS backtracking
behaviour for these particular patterns (argued locally at each scanner).
JS `Number` arithmetic on the small time quantities involved is exact, so
it is embedded as `ℚ`.
-/

/-! ## Generic character/string helpers -/

/-- JS `\s` / `String.prototype.trim` whitespace (ASCII part; the inputs
considered are plain ASCII text plus typographic quotes). -/
def isJsWs (c : Char) : Bool :=
  c = ' ' || c = '\t' || c = '\n' || c = '\r' || c = '\x0b' || c = '\x0c'

/-- JS identifier-ish character class `[A-Za-z0-9_]` used throughout the
source's node/edge regexes. -/
def isWordChar (c : Char) : Bool :=
  (c ≥ 'A' && c ≤ 'Z') || (c ≥ 'a' && c ≤ 'z') || (c ≥ '0' && c ≤ '9') || c = '_'

/-- `String.prototype.trim`. -/
def jsTrim (s : List Char) : List Char :=
  ((s.dropWhile isJsWs).reverse.dropWhile isJsWs).reverse

/-- Numeric value of a (non-empty) digit run, as matched by `\d+`. -/
def natOfDigits (ds : List Char) : Nat :=
  ds.foldl (fun n c => n * 10 + (c.toNat - 48)) 0

/-- Case-insensitive prefix test (for `/.../i` literals). -/
def ciStartsWith (s : List Char) (pat : List Char) : Bool :=
  (pat.zip s).all (fun p => p.1.toLower = p.2.toLower) && pat.length ≤ s.length

/-- Leftmost-match scanner: attempt the pattern at every index, ascending,
exactly as a JS regex engine searches for an unanchored match. -/
def scanFirst (att : List Char → Option β) : List Char → Option β
  | [] => none
  | c :: rest =>
    match att (c :: rest) with
    | some r => some r
    | none => scanFirst att rest

/-! ## `utils/metricsProcessor.js` : time parsing and formatting -/

/-- Attempt `(\d+)\s*-\s*(\d+)\s*(week|weeks)s?` (resp. `day`) at the head
of the text: digit run, optional whitespace, `-`, optional whitespace,
digit run, optional whitespace, then the unit word (case-insensitively).
Maximal munch on the digit runs is exact here: a shorter run would leave a
digit where `-` or the unit is required. -/
def tryRangeUnit (unit : List Char) (s : List Char) : Option (Nat × Nat) :=
  let (d1, r1) := s.span Char.isDigit
  if d1 = [] then none else
  match r1.dropWhile isJsWs with
  | '-' :: r3 =>
    let (d2, r5) := (r3.dropWhile isJsWs).span Char.isDigit
    if d2 = [] then none else
    if ciStartsWith (r5.dropWhile isJsWs) unit then some (natOfDigits d1, natOfDigits d2)
    else none
  | _ => none

/-- Attempt `(\d+)\s*(week|weeks)s?` (resp. `day`) at the head of the text. -/
def trySingleUnit (unit : List Char) (s : List Char) : Option Nat :=
  let (d1, r1) := s.span Char.isDigit
  if d1 = [] then none else
  if ciStartsWith (r1.dropWhile isJsWs) unit then some (natOfDigits d1) else none

/-- Attempt `(\d+(?:\.\d+)?)\s*(hour|hours|hr|h)s?` (resp.
`minute|minutes|min|m`) at the head of the text.  Because the alternation
contains the bare one-letter unit, the unit part matches exactly when the
text after the number and optional whitespace starts with that letter
(case-insensitively).  The optional decimal part is greedy; if the unit
fails after it, JS backtracks and retries without it, which the second
branch reproduces. -/
def tryUnitNumber (initial : Char) (s : List Char) : Option ℚ :=
  let (d1, r1) := s.span Char.isDigit
  if d1 = [] then none else
  let withoutDec : Option ℚ :=
    match r1.dropWhile isJsWs with
    | c :: _ => if c.toLower = initial then some (natOfDigits d1 : ℚ) else none
    | [] => none
  match r1 with
  | '.' :: r2 =>
    let (d2, r3) := r2.span Char.isDigit
    if d2 = [] then withoutDec else
    match r3.dropWhile isJsWs with
    | c :: _ =>
      if c.toLower = initial then
        some ((natOfDigits d1 : ℚ) + (natOfDigits d2 : ℚ) / ((10 : ℚ) ^ d2.length))
      else withoutDec
    | [] => withoutDec
  | _ => withoutDec

/-- `parseTimeToMinutes` (metricsProcessor.js:34-85): fixed precedence of
patterns — week range, single weeks, day range, single days, then the
hours/minutes combination — each searched leftmost in the string; the
week/day paths return immediately, the hours/minutes path returns `null`
(here `none`) when the accumulated total is not positive.  The JS guard
`!timeString || typeof !== 'string' || timeString === "Unknown"` becomes
the empty/`"Unknown"` test. -/
def parseTimeToMinutes (timeString : String) : Option ℚ :=
  if timeString = "" || timeString = "Unknown" then none else
  let s := timeString.data
  match scanFirst (tryRangeUnit "week".data) s with
  | some (mn, mx) => some ((((mn : ℚ) + (mx : ℚ)) / 2) * (5 * 8 * 60))
  | none =>
  match scanFirst (trySingleUnit "week".data) s with
  | some w => some ((w : ℚ) * (5 * 8 * 60))
  | none =>
  match scanFirst (tryRangeUnit "day".data) s with
  | some (mn, mx) => some ((((mn : ℚ) + (mx : ℚ)) / 2) * (8 * 60))
  | none =>
  match scanFirst (trySingleUnit "day".data) s with
  | some d => some ((d : ℚ) * (8 * 60))
  | none =>
  let hrs : ℚ := match scanFirst (tryUnitNumber 'h') s with
    | some h => h * 60
    | none => 0
  let mins : ℚ := match scanFirst (tryUnitNumber 'm') s with
    | some m => m
    | none => 0
  if 0 < hrs + mins then some (hrs + mins) else none

/-- JS `%` on the nonnegative quantities used by the formatter. -/
def jsMod (a b : ℚ) : ℚ := a - b * ((⌊a / b⌋ : ℤ) : ℚ)

/-- `Math.round` (round half toward positive infinity). -/
def jsRound (q : ℚ) : ℤ := ⌊q + 1 / 2⌋

/-- The `${n !== 1 ? 's' : ''}` pluralisation used by the formatter. -/
def plural (n : ℤ) : String := if n ≠ 1 then "s" else ""

/-- `formatMinutesToTime` (metricsProcessor.js:92-112).  The
`null`/`NaN` guard of the source collapses to the `< 0` test on `ℚ`. -/
def formatMinutesToTime (minutes : ℚ) : String :=
  if minutes < 0 then "Unknown"
  else if 60 * 24 ≤ minutes then
    let days : ℤ := ⌊minutes / (8 * 60)⌋
    let hours : ℤ := ⌊jsMod minutes (8 * 60) / 60⌋
    let rem : ℤ := jsRound (jsMod minutes 60)
    toString days ++ " day" ++ plural days
      ++ (if 0 < hours then " " ++ toString hours ++ " hour" ++ plural hours else "")
      ++ (if 0 < rem then " " ++ toString rem ++ " minute" ++ plural rem else "")
  else if 60 ≤ minutes then
    let hours : ℤ := ⌊minutes / 60⌋
    let rem : ℤ := jsRound (jsMod minutes 60)
    toString hours ++ " hour" ++ plural hours
      ++ (if 0 < rem then " " ++ toString rem ++ " minute" ++ plural rem else "")
  else
    toString (jsRound minutes) ++ " minute" ++ plural (jsRound minutes)

/-! ## `utils/metricsProcessor.js` : metrics records and merging -/

/-- One step's derived time record (`StepTime` in the source).  The
`timestamp` fields of the source are wall-clock reads (`Date.now()`) and
are omitted from the embedding; no claim concerns them.  `source` is the
provenance tag `mergeMetrics` stamps on each entry. -/
structure StepTime where
  step : String
  stepName : String
  time : String
  timeMinutes : ℚ
  source : Option String := none
deriving DecidableEq, Repr

/-- `ProcessMetrics` (without the wall-clock `timestamp`). -/
structure ProcessMetrics where
  totalSteps : Nat
  totalTime : String
  totalTimeMinutes : ℚ
  stepTimes : List StepTime
  source : String
deriving DecidableEq, Repr

/-- `createDefaultMetrics` (metricsProcessor.js:758-767). -/
def createDefaultMetrics (source : String) : ProcessMetrics :=
  { totalSteps := 0, totalTime := "Unknown", totalTimeMinutes := 0
    stepTimes := [], source := source }

/-- `parseInt(s, 10)`: optional whitespace, optional sign, then a leading
digit run; `NaN` (here `none`) when no digits follow. -/
def jsParseIntOpt (s : String) : Option ℤ :=
  let t := s.data.dropWhile isJsWs
  let digits : List Char → Option ℤ := fun r =>
    let (d, _) := r.span Char.isDigit
    if d = [] then none else some (natOfDigits d : ℤ)
  match t with
  | '-' :: r => (digits r).map (fun n => -n)
  | '+' :: r => digits r
  | r => digits r

/-- Sort key `parseInt(a.step, 10) || Number.MAX_SAFE_INTEGER`
(metricsProcessor.js:440-442): `NaN` and `0` are falsy, so both fall back
to `MAX_SAFE_INTEGER`. -/
def stepSortKey (e : StepTime) : ℤ :=
  match jsParseIntOpt e.step with
  | some n => if n = 0 then (2 ^ 53 - 1 : ℤ) else n
  | none => (2 ^ 53 - 1 : ℤ)

/-- `Map.prototype.set` on an insertion-ordered association list keyed by
`step`: replace in place when the key is present, append otherwise. -/
def setStep : List StepTime → StepTime → List StepTime
  | [], s => [s]
  | e :: rest, s => if e.step = s.step then s :: rest else e :: setStep rest s

/-- `Map.prototype.has` on the same representation. -/
def hasStep (l : List StepTime) (k : String) : Bool :=
  l.any (fun e => e.step = k)

/-- JS `Array.prototype.sort` with comparator `stepSortKey a - stepSortKey b`
is the stable ascending sort by `stepSortKey`; a stable sort is unique, so
the structurally recursive insertion sort (Mathlib's `insertionSort`, which
inserts from the right and is stable) computes the same list. -/
def sortByStepKey (l : List StepTime) : List StepTime :=
  l.insertionSort (fun a b => stepSortKey a ≤ stepSortKey b)

/-- `mergeMetrics` (metricsProcessor.js:400-451): document entries are
inserted first (later duplicates overwrite, as `Map.set` does), workflow
entries only when their key is absent; the merged list is sorted by step
key and the merged total is recomputed as the sum over that list. -/
def mergeMetrics (workflowMetrics documentMetrics : Option ProcessMetrics) : ProcessMetrics :=
  let workflow := workflowMetrics.getD (createDefaultMetrics "workflow")
  let doc := documentMetrics.getD (createDefaultMetrics "document")
  let fromDoc := doc.stepTimes.foldl
    (fun acc s => setStep acc { s with source := some "document" }) []
  let both := workflow.stepTimes.foldl
    (fun acc s => if hasStep acc s.step then acc else acc ++ [{ s with source := some "workflow" }])
    fromDoc
  let sorted := sortByStepKey both
  let total : ℚ := (sorted.map (fun s => s.timeMinutes)).sum
  { totalSteps := max workflow.totalSteps doc.totalSteps
    stepTimes := sorted
    totalTimeMinutes := total
    totalTime := formatMinutesToTime total
    source := "merged" }

/-! ## Generic JS `String.replace(regex, ...)` scanner

`replaceScanP` walks the text left to right, as a global JS regex does:
at each index it attempts the pattern (the attempt receives the previous
character, which is what `^` in multiline mode and `\b` inspect); on a
match it emits the replacement and resumes after the consumed span, on a
failure it emits one character and moves one index forward.  The fuel is
the text length plus one; every step consumes at least one character, so
the fuel never runs out on a real input. -/

def replaceScanP (att : Option Char → List Char → Option (List Char × Nat)) :
    Nat → Option Char → List Char → List Char
  | 0, _, s => s
  | _ + 1, _, [] => []
  | fuel + 1, prev, c :: rest =>
    match att prev (c :: rest) with
    | some (out, k) =>
      out ++ replaceScanP att fuel (((c :: rest).take k).getLast?) ((c :: rest).drop k)
    | none => c :: replaceScanP att fuel (some c) rest

/-- Run a replacement pass over a whole text. -/
def runReplace (att : Option Char → List Char → Option (List Char × Nat))
    (s : List Char) : List Char :=
  replaceScanP att (s.length + 1) none s

/-- `^` of a multiline regex: at the start of the text or after a newline. -/
def isLineStart (prev : Option Char) : Bool :=
  prev = none || prev = some '\n'

/-- First occurrence of a literal substring, replaced
(JS `String.replace` with a plain-string or non-global regex argument). -/
def replaceFirst : List Char → List Char → List Char → List Char
  | [], _, _ => []
  | c :: rest, pat, repl =>
    if pat.isPrefixOf (c :: rest) then repl ++ (c :: rest).drop pat.length
    else c :: replaceFirst rest pat repl

/-- `String.prototype.includes` for a literal substring. -/
def containsSub : List Char → List Char → Bool
  | [], pat => pat.isEmpty
  | c :: rest, pat => pat.isPrefixOf (c :: rest) || containsSub rest pat

/-! ## `validateAndFixMermaidSyntax` (workflowGenerator.js:121-256) -/

/-- `/^graph\s+(TD|LR|RL|BT)/i`, anchored at the start of the text. -/
def hasGraphHeader (s : List Char) : Bool :=
  ciStartsWith s "graph".data &&
  (let r := s.drop 5
   let (ws, r1) := r.span isJsWs
   ws ≠ [] &&
   (ciStartsWith r1 "td".data || ciStartsWith r1 "lr".data ||
    ciStartsWith r1 "rl".data || ciStartsWith r1 "bt".data))

/-- `-+>` (global) to `-->`: a maximal dash run followed by `>`; a shorter run
inside the same dash block is never followed by `>` either, so maximal
munch is exact. -/
def attArrowPlus (_ : Option Char) (s : List Char) : Option (List Char × Nat) :=
  match s with
  | '-' :: rest =>
    let (dashes, r2) := rest.span (fun c => c = '-')
    match r2 with
    | '>' :: _ => some ("-->".data, dashes.length + 2)
    | _ => none
  | _ => none

/-- `--[^>]` (global) to `-->`: two dashes and one non-`>` character, all three
consumed (the third character is dropped by the replacement). -/
def attArrowDashes (_ : Option Char) (s : List Char) : Option (List Char × Nat) :=
  match s with
  | '-' :: '-' :: x :: _ => if x ≠ '>' then some ("-->".data, 3) else none
  | _ => none

/-- `<br\s*\/?>` (global, ci) to a space. -/
def attBrTag (_ : Option Char) (s : List Char) : Option (List Char × Nat) :=
  match s with
  | '<' :: b :: r :: rest =>
    if b.toLower = 'b' && r.toLower = 'r' then
      let (ws, r1) := rest.span isJsWs
      match r1 with
      | '/' :: '>' :: _ => some ([' '], 3 + ws.length + 2)
      | '>' :: _ => some ([' '], 3 + ws.length + 1)
      | _ => none
    else none
  | _ => none

/-- `<[^>]+>` (global) to the empty string: `<`, at least one non-`>` character, then the next
`>`. -/
def attHtmlTag (_ : Option Char) (s : List Char) : Option (List Char × Nat) :=
  match s with
  | '<' :: rest =>
    let (t, r2) := rest.span (fun c => c ≠ '>')
    match r2 with
    | '>' :: _ => if t = [] then none else some ([], 1 + t.length + 1)
    | _ => none
  | _ => none

/-- `'` (global) to `"`. -/
def attApos (_ : Option Char) (s : List Char) : Option (List Char × Nat) :=
  match s with
  | '\'' :: _ => some (['"'], 1)
  | _ => none

/-- The smart-double-quote class (U+201C, U+201D) normalised to `"`. -/
def attSmartQuote (_ : Option Char) (s : List Char) : Option (List Char × Nat) :=
  match s with
  | c :: _ => if c.toNat = 0x201C || c.toNat = 0x201D then some (['"'], 1) else none
  | _ => none

/-- `,\s*\]` (global) to `]`. -/
def attTrailingComma (_ : Option Char) (s : List Char) : Option (List Char × Nat) :=
  match s with
  | ',' :: rest =>
    let (ws, r1) := rest.span isJsWs
    match r1 with
    | ']' :: _ => some ([']'], 1 + ws.length + 1)
    | _ => none
  | _ => none

/-- `\[([^"\]]+\s+[^"\]]+)\]` (global) to `["$1"]`: the bracket content runs to
the next `]`, may not contain `"`, and must decompose as
`[^"\]]+ \s+ [^"\]]+`, i.e. contain a whitespace character that is neither
its first nor its last character. -/
def attQuoteSpacedLabel (_ : Option Char) (s : List Char) : Option (List Char × Nat) :=
  match s with
  | '[' :: rest =>
    let (content, r1) := rest.span (fun c => c ≠ '"' && c ≠ ']')
    match r1 with
    | ']' :: _ =>
      if content ≠ [] && ((content.drop 1).dropLast).any isJsWs then
        some ('[' :: '"' :: content ++ ['"', ']'], 1 + content.length + 1)
      else none
    | _ => none
  | _ => none

/-- Shared shape for `ident \s* OPEN \s* " label " \s* CLOSE` matches.
Returns the identifier, the label and the consumed length.  Maximal munch
on the identifier, whitespace and label runs is exact for these patterns:
shrinking any of them leaves a character that the following mandatory
literal cannot match. -/
def attNodeShape (openC closeC : Char) (s : List Char) : Option (List Char × List Char × Nat) :=
  let (w, r1) := s.span isWordChar
  if w = [] then none else
  let (ws1, r2) := r1.span isJsWs
  match r2 with
  | o :: r3 =>
    if o = openC then
      let (ws2, r4) := r3.span isJsWs
      match r4 with
      | '"' :: r5 =>
        let (lbl, r6) := r5.span (fun c => c ≠ '"')
        if lbl = [] then none else
        match r6 with
        | '"' :: r7 =>
          let (ws3, r8) := r7.span isJsWs
          match r8 with
          | c :: _ =>
            if c = closeC then
              some (w, lbl,
                w.length + ws1.length + 1 + ws2.length + 1 + lbl.length + 1 + ws3.length + 1)
            else none
          | [] => none
        | _ => none
      | _ => none
    else none
  | [] => none

/-- `([A-Za-z0-9_]+)\s*\[\s*"([^"]+)"\s*\]` (global) to `$1["$2"]`. -/
def attNormalizeNodeDef (_ : Option Char) (s : List Char) : Option (List Char × Nat) :=
  match attNodeShape '[' ']' s with
  | some (w, lbl, k) => some (w ++ '[' :: '"' :: lbl ++ ['"', ']'], k)
  | none => none

/-- `([A-Za-z0-9_]+)\s*\{\s*"([^"]+)"\s*\}` (global) to `$1\x7b"$2"\x7d`.  Note that
the `\s*` runs match newlines, so this pass can merge adjacent lines. -/
def attNormalizeDecisionDef (_ : Option Char) (s : List Char) : Option (List Char × Nat) :=
  match attNodeShape '{' '}' s with
  | some (w, lbl, k) => some (w ++ '{' :: '"' :: lbl ++ ['"', '}'], k)
  | none => none

/-- `-->\|([^|]*[^|"])\|` (global) to `-->|"$1"|`: literal `-->|`, then the
content up to the next `|`, which must be non-empty and not end in `"`. -/
def attQuoteCondLabel (_ : Option Char) (s : List Char) : Option (List Char × Nat) :=
  if "-->|".data.isPrefixOf s then
    let rest := s.drop 4
    let (content, r1) := rest.span (fun c => c ≠ '|')
    match r1 with
    | '|' :: _ =>
      if content ≠ [] && content.getLast? ≠ some '"' then
        some ("-->|".data ++ '"' :: content ++ ['"', '|'], 4 + content.length + 1)
      else none
    | _ => none
  else none

/-- Largest `n ≤ maxN` such that `g` occurs at offset `n` of `rest`
(greedy `\s*` before a backreference backtracks from the longest run). -/
def findDupTail (g rest : List Char) : Nat → Option Nat
  | 0 => if g.isPrefixOf rest then some 0 else none
  | n + 1 => if g.isPrefixOf (rest.drop (n + 1)) then some (n + 1) else findDupTail g rest n

/-- Regex `^(\s*[A-Za-z0-9_]+\["[^"]+"\])\s*\1` (global, multiline) to
`$1`: at a line start, a whitespace run, an identifier, `["label"]`, then
whitespace and a literal repeat of the whole captured text.  The greedy
`\s*` before the backreference backtracks to the largest offset at which
the repeat matches. -/
def attDedupNodeDef (prev : Option Char) (s : List Char) : Option (List Char × Nat) :=
  if !isLineStart prev then none else
  let (w, r1) := s.span isJsWs
  let (i, r2) := r1.span isWordChar
  if i = [] then none else
  match r2 with
  | '[' :: '"' :: r3 =>
    let (lbl, r4) := r3.span (fun c => c ≠ '"')
    if lbl = [] then none else
    match r4 with
    | '"' :: ']' :: r5 =>
      let g := w ++ i ++ '[' :: '"' :: lbl ++ ['"', ']']
      let (k, _) := r5.span isJsWs
      match findDupTail g r5 k.length with
      | some n => some (g, g.length + n + g.length)
      | none => none
    | _ => none
  | _ => none

/-- Index (from the left) of the last `'\n'` in a whitespace run, if any. -/
def lastNlIdx (t : List Char) : Option Nat :=
  (t.reverse.findIdx? (fun c => c = '\n')).map (fun r => t.length - 1 - r)

/-- Regex `^(\s*)endNode\s*$` (global, multiline) to `$1end`: a bare
`endNode` line.  The trailing greedy `\s*$` consumes up to the end of the
text, or otherwise up to (and including) the last newline of the trailing
whitespace run that still leaves `$` before a newline. -/
def attBareEndNodeLine (prev : Option Char) (s : List Char) : Option (List Char × Nat) :=
  if !isLineStart prev then none else
  let (w, r1) := s.span isJsWs
  if "endNode".data.isPrefixOf r1 then
    let r2 := r1.drop 7
    let (t, after) := r2.span isJsWs
    match (if after.isEmpty then some t.length else lastNlIdx t) with
    | some n => some (w ++ "end".data, w.length + 7 + n)
    | none => none
  else none

/-- Regex `\bendNode\b(?!\s*$)` (global, single-line) to `endProcess`:
a word-bounded `endNode` not followed purely by whitespace up to the end
of the whole text. -/
def attEndNodeWord (prev : Option Char) (s : List Char) : Option (List Char × Nat) :=
  let prevWord := match prev with
    | some c => isWordChar c
    | none => false
  if prevWord then none else
  if "endNode".data.isPrefixOf s then
    let rest := s.drop 7
    let boundary := match rest with
      | c :: _ => !isWordChar c
      | [] => true
    if boundary && !rest.all isJsWs then some ("endProcess".data, 7) else none
  else none

/-- Regex `\bend\b(?!\s*$)` (global) to `endNode`, used by `removeNode`
when the removed node is itself named `end`. -/
def attEndWord (prev : Option Char) (s : List Char) : Option (List Char × Nat) :=
  let prevWord := match prev with
    | some c => isWordChar c
    | none => false
  if prevWord then none else
  if "end".data.isPrefixOf s then
    let rest := s.drop 3
    let boundary := match rest with
      | c :: _ => !isWordChar c
      | [] => true
    if boundary && !rest.all isJsWs then some ("endNode".data, 3) else none
  else none

/-- JS `split('\n')` (keeps empty segments). -/
def splitOnNl : List Char → List (List Char)
  | [] => [[]]
  | c :: rest =>
    if c = '\n' then [] :: splitOnNl rest
    else match splitOnNl rest with
      | l :: ls => (c :: l) :: ls
      | [] => [[c]]

/-- JS `join('\n')`. -/
def joinNl (ls : List (List Char)) : List Char :=
  List.intercalate ['\n'] ls

/-- `^([A-Za-z0-9_]+)(?:\[|\(|\{)` on a trimmed line: the node-definition
head used by the validator to collect defined node ids
(workflowGenerator.js:177, 213). -/
def matchNodeStart (t : List Char) : Option (List Char) :=
  let (w, r) := t.span isWordChar
  if w = [] then none else
  match r with
  | '[' :: _ => some w
  | '(' :: _ => some w
  | '{' :: _ => some w
  | _ => none

/-- First pass of the validator's subgraph handling
(workflowGenerator.js:163-181): collect node ids defined in the main flow,
skipping each subgraph block up to (and including) the first line that
trims to `end`. -/
def collectDefinedGo : Nat → List (List Char) → List (List Char)
  | 0, _ => []
  | _ + 1, [] => []
  | fuel + 1, l :: rest =>
    let t := jsTrim l
    if "subgraph".data.isPrefixOf t then
      collectDefinedGo fuel (((l :: rest).dropWhile (fun x => jsTrim x ≠ "end".data)).drop 1)
    else
      match matchNodeStart t with
      | some id => id :: collectDefinedGo fuel rest
      | none => collectDefinedGo fuel rest

def collectDefined (lines : List (List Char)) : List (List Char) :=
  collectDefinedGo (lines.length + 1) lines

/-- Second pass of the validator's subgraph handling
(workflowGenerator.js:184-226): track subgraph nesting (`inSubgraph`
mirrors `0 < depth`), turn `endNode` closers into `end` when they actually
close a tracked subgraph, keep stray closers verbatim, and collapse a
node redefinition inside a subgraph to a bare reference when the id is
already defined in the main flow.  Returns the emitted lines and the
final depth. -/
def subgraphPassGo (defined : List (List Char)) :
    List (List Char) → Nat → Bool → List (List Char) × Nat
  | [], depth, _ => ([], depth)
  | l :: rest, depth, insg =>
    let t := jsTrim l
    if "subgraph".data.isPrefixOf t then
      let r := subgraphPassGo defined rest (depth + 1) true
      (l :: r.1, r.2)
    else if t = "end".data || t = "endNode".data then
      if insg && decide (0 < depth) then
        let r := subgraphPassGo defined rest (depth - 1) (decide (0 < depth - 1))
        (replaceFirst l "endNode".data "end".data :: r.1, r.2)
      else
        let r := subgraphPassGo defined rest depth insg
        (l :: r.1, r.2)
    else
      match matchNodeStart t with
      | some id =>
        if insg && defined.contains id then
          let r := subgraphPassGo defined rest depth insg
          (id :: r.1, r.2)
        else
          let r := subgraphPassGo defined rest depth insg
          (l :: r.1, r.2)
      | none =>
        let r := subgraphPassGo defined rest depth insg
        (l :: r.1, r.2)

def subgraphPass (defined lines : List (List Char)) : List (List Char) × Nat :=
  subgraphPassGo defined lines 0 false

/-- `fixed.match(/\[[^\]]+\]/)`: some `[`, at least one non-`]`, then `]`. -/
def hasNodeBracket : List Char → Bool
  | [] => false
  | c :: rest =>
    if c = '[' then
      match rest.span (fun x => x ≠ ']') with
      | (t, ']' :: _) => if t = [] then hasNodeBracket rest else true
      | _ => false
    else hasNodeBracket rest

/-- The chain of global replacements applied before the line passes
(workflowGenerator.js:133-150), in source order. -/
def preFixes (s : List Char) : List Char :=
  runReplace attDedupNodeDef (
  runReplace attNormalizeNodeDef (
  runReplace attQuoteSpacedLabel (
  runReplace attTrailingComma (
  runReplace attSmartQuote (
  runReplace attApos (
  runReplace attHtmlTag (
  runReplace attBrTag (
  runReplace attArrowDashes (
  runReplace attArrowPlus s)))))))))

/-- `validateAndFixMermaidSyntax` (workflowGenerator.js:121-256) on the
character-list representation, for a non-empty input: trim, ensure the
`graph` directive, the global replacement chain, the two subgraph line
passes, the at-least-one-node fallback, the decision-node and
condition-label fixes, the two `endNode` clean-ups, and finally one `end`
line per unclosed subgraph. -/
def validateFix (code : List Char) : List Char :=
  let fixed := jsTrim code
  let fixed := if hasGraphHeader fixed then fixed else "graph TD\n".data ++ fixed
  let fixed := preFixes fixed
  let lines := splitOnNl fixed
  let defined := collectDefined lines
  let pass := subgraphPass defined lines
  let fixed := joinNl pass.1
  let fixed := if hasNodeBracket fixed then fixed
    else fixed ++ "\nA[\"Process Start\"] --> B[\"Process End\"]".data
  let fixed := runReplace attQuoteCondLabel (runReplace attNormalizeDecisionDef fixed)
  let fixed := runReplace attBareEndNodeLine fixed
  let fixed := runReplace attEndNodeWord fixed
  fixed ++ (List.replicate pass.2 "\nend".data).flatten

/-- `validateAndFixMermaidSyntax` at the `String` boundary; the `!code`
guard of the source is the empty-string test. -/
def validateAndFixMermaidSyntax (code : String) : String :=
  if code = "" then "graph TD\nA[No diagram available]"
  else String.mk (validateFix code.data)

/-- Saturating subgraph-depth scan over emitted lines: a line whose trim
starts with `subgraph` opens a group, a line that trims to `end` closes
the innermost open group when one is open (natural subtraction saturates
at zero, matching a scan that ignores closers at depth zero). -/
def satRun : Nat → List (List Char) → Nat
  | d, [] => d
  | d, l :: rest =>
    let t := jsTrim l
    if "subgraph".data.isPrefixOf t then satRun (d + 1) rest
    else if t = "end".data then satRun (d - 1) rest
    else satRun d rest

/-- Number of group-opener lines of a diagram source. -/
def openerLineCount (s : String) : Nat :=
  ((splitOnNl s.data).filter (fun l => "subgraph".data.isPrefixOf (jsTrim l))).length

/-- Number of bare `end` closer lines of a diagram source. -/
def closerLineCount (s : String) : Nat :=
  ((splitOnNl s.data).filter (fun l => jsTrim l = "end".data)).length

/-! ## `parseMermaidDiagram` (workflowEditor.js:16-461) -/

inductive NType where
  | process
  | decision
  | startEnd
deriving DecidableEq, Repr

/-- A parsed node.  Optional JS object fields become `Option`/default
values: `line` is absent on recovered/implicit nodes, `subgraphs` is
absent (equivalently empty, the only way the source reads it) outside the
second pass, and the boolean marker fields default to absent/false. -/
structure MNode where
  id : String
  type : NType
  label : String
  fullLabel : String
  timeEstimate : Option String := none
  line : Option Nat := none
  subgraphs : List String := []
  isImplicit : Bool := false
  isRecovered : Bool := false
  fromComment : Bool := false
  foundInConnection : Bool := false
  foundInFullScan : Bool := false
  inferredFromSubgraph : Bool := false
deriving DecidableEq, Repr

structure MConnection where
  fromId : String
  toId : String
  label : String
  line : Nat
deriving DecidableEq, Repr

structure MSubgraph where
  title : String
  startLine : Nat
  endLine : Nat
  nodes : List String
deriving DecidableEq, Repr

structure ParsedDiagram where
  nodes : List (String × MNode)
  connections : List MConnection
  subgraphs : List MSubgraph
deriving DecidableEq, Repr

/-- JS object write `nodes[id] = v`: replace in place or append. -/
def setNode : List (String × MNode) → String → MNode → List (String × MNode)
  | [], k, v => [(k, v)]
  | (k', v') :: rest, k, v =>
    if k' = k then (k, v) :: rest else (k', v') :: setNode rest k v

/-- JS object read `nodes[id]`. -/
def findNode (ns : List (String × MNode)) (k : String) : Option MNode :=
  (ns.find? (fun p => p.1 == k)).map (fun p => p.2)

/-- Title extraction `subgraph\s+"?([^"]+)"?` on a trimmed `subgraph `
line (workflowEditor.js:44-45); `''` when the match fails.  When the
greedy `\s+` leaves nothing matchable, the regex backtracks one
whitespace character, which then satisfies `[^"]+` on its own. -/
def subgraphTitle (t : List Char) : String :=
  let r := t.drop 8
  let (ws, r1) := r.span isJsWs
  if ws = [] then "" else
  let mainAttempt : Option (List Char) :=
    let u := match r1 with
      | '"' :: x => x
      | x => x
    let (c, _) := u.span (fun c => c ≠ '"')
    if c ≠ [] then some c else
    let (c2, _) := r1.span (fun c => c ≠ '"')
    if c2 ≠ [] then some c2 else none
  match mainAttempt with
  | some c => String.mk c
  | none =>
    match ws.getLast? with
    | some w =>
      if 2 ≤ ws.length then String.mk (w :: (r1.span (fun c => c ≠ '"')).1) else ""
    | none => ""

/-- Find the `end` line closing a subgraph opened just before index `j`,
tracking nesting (workflowEditor.js:52-64). -/
def findSubEnd (lines : List (List Char)) : Nat → Nat → Nat → Option Nat
  | 0, _, _ => none
  | fuel + 1, j, nest =>
    match lines[j]? with
    | none => none
    | some l =>
      let t := jsTrim l
      if "subgraph ".data.isPrefixOf t then findSubEnd lines fuel (j + 1) (nest + 1)
      else if t = "end".data then
        if nest = 1 then some j else findSubEnd lines fuel (j + 1) (nest - 1)
      else findSubEnd lines fuel (j + 1) nest

/-- First parser pass: collect subgraph boundaries, skipping past each
closed subgraph (workflowEditor.js:38-82).  Subgraphs without a matching
`end` are not recorded. -/
def pass1Go (lines : List (List Char)) : Nat → Nat → List MSubgraph
  | 0, _ => []
  | fuel + 1, i =>
    match lines[i]? with
    | none => []
    | some l =>
      let t := jsTrim l
      if "subgraph ".data.isPrefixOf t then
        match findSubEnd lines (lines.length + 1) (i + 1) 1 with
        | some e =>
          { title := subgraphTitle t, startLine := i, endLine := e, nodes := [] }
            :: pass1Go lines fuel (e + 1)
        | none => pass1Go lines fuel (i + 1)
      else pass1Go lines fuel (i + 1)

def pass1 (lines : List (List Char)) : List MSubgraph :=
  pass1Go lines (lines.length + 1) 0

/-- `ident \s* ( [ \s* " label " \s* ] )` — the start/end node shape
`(["..."])` with an identifier head. -/
def attStartEndShape (s : List Char) : Option (List Char × List Char × Nat) :=
  let (w, r1) := s.span isWordChar
  if w = [] then none else
  let (ws1, r2) := r1.span isJsWs
  match r2 with
  | '(' :: '[' :: r3 =>
    let (ws2, r4) := r3.span isJsWs
    match r4 with
    | '"' :: r5 =>
      let (lbl, r6) := r5.span (fun c => c ≠ '"')
      if lbl = [] then none else
      match r6 with
      | '"' :: r7 =>
        let (ws3, r8) := r7.span isJsWs
        match r8 with
        | ']' :: ')' :: _ =>
          some (w, lbl,
            w.length + ws1.length + 2 + ws2.length + 1 + lbl.length + 1 + ws3.length + 2)
        | _ => none
      | _ => none
    | _ => none
  | _ => none

/-- `NODEID \s* OPEN \s* " label " \s* CLOSE` with a fixed literal id, as
built by `new RegExp` in the recovery passes. -/
def attIdShape (nodeId : List Char) (openC closeC : Char) (s : List Char) : Option (List Char) :=
  if nodeId.isPrefixOf s then
    let r1 := (s.drop nodeId.length).dropWhile isJsWs
    match r1 with
    | o :: r2 =>
      if o = openC then
        match r2.dropWhile isJsWs with
        | '"' :: r3 =>
          let (lbl, r4) := r3.span (fun c => c ≠ '"')
          if lbl = [] then none else
          match r4 with
          | '"' :: r5 =>
            match r5.dropWhile isJsWs with
            | c :: _ => if c = closeC then some lbl else none
            | [] => none
          | _ => none
        | _ => none
      else none
    | [] => none
  else none

/-- `NODEID \s* ( [ \s* " label " \s* ] )` with a fixed literal id. -/
def attIdStartEnd (nodeId : List Char) (s : List Char) : Option (List Char) :=
  if nodeId.isPrefixOf s then
    match (s.drop nodeId.length).dropWhile isJsWs with
    | '(' :: '[' :: r2 =>
      match r2.dropWhile isJsWs with
      | '"' :: r3 =>
        let (lbl, r4) := r3.span (fun c => c ≠ '"')
        if lbl = [] then none else
        match r4 with
        | '"' :: r5 =>
          match r5.dropWhile isJsWs with
          | ']' :: ')' :: _ => some lbl
          | _ => none
        | _ => none
      | _ => none
    | _ => none
  else none

/-- `([A-Za-z0-9_]+)\s*-->\|"([^"]+)"\|\s*([A-Za-z0-9_]+)` at the head of
the text. -/
def attLabeledConn (s : List Char) : Option (List Char × List Char × List Char) :=
  let (w1, r1) := s.span isWordChar
  if w1 = [] then none else
  let r2 := r1.dropWhile isJsWs
  if "-->|".data.isPrefixOf r2 then
    match r2.drop 4 with
    | '"' :: r3 =>
      let (lbl, r4) := r3.span (fun c => c ≠ '"')
      if lbl = [] then none else
      match r4 with
      | '"' :: '|' :: r5 =>
        let (w2, _) := (r5.dropWhile isJsWs).span isWordChar
        if w2 = [] then none else some (w1, lbl, w2)
      | _ => none
    | _ => none
  else none

/-- `([A-Za-z0-9_]+)\s*-->\s*([A-Za-z0-9_]+)` at the head of the text. -/
def attBasicConn (s : List Char) : Option (List Char × List Char) :=
  let (w1, r1) := s.span isWordChar
  if w1 = [] then none else
  let r2 := r1.dropWhile isJsWs
  if "-->".data.isPrefixOf r2 then
    let (w2, _) := ((r2.drop 3).dropWhile isJsWs).span isWordChar
    if w2 = [] then none else some (w1, w2)
  else none

/-- Trailing time-estimate clause `\(([^)]+)\)$` of a node label
(workflowEditor.js:111-114): the first `(` whose content runs, without any
`)`, to a `)` that ends the label.  Returns the estimate and the trimmed
remaining label. -/
def extractTimeGo : List Char → List Char → Option (String × String)
  | _, [] => none
  | acc, c :: rest =>
    if c = '(' then
      if 2 ≤ rest.length && rest.getLast? = some ')'
          && rest.dropLast.all (fun x => x ≠ ')') then
        some (String.mk rest.dropLast, String.mk (jsTrim acc.reverse))
      else extractTimeGo (c :: acc) rest
    else extractTimeGo (c :: acc) rest

def extractTime (label : List Char) : Option (String × String) :=
  extractTimeGo [] label

/-- Subgraph membership update of the second pass
(workflowEditor.js:138-142): a node is added to every subgraph whose open
line span strictly contains its line. -/
def addNodeToSgs (sgs : List MSubgraph) (i : Nat) (id : String) : List MSubgraph :=
  sgs.map (fun sg =>
    if sg.startLine < i && i < sg.endLine && !(sg.nodes.contains id) then
      { sg with nodes := sg.nodes ++ [id] }
    else sg)

/-- Titles of the subgraphs whose line span strictly contains line `i`
(workflowEditor.js:99-101). -/
def currentTitles (sgs : List MSubgraph) (i : Nat) : List String :=
  (sgs.filter (fun sg => sg.startLine < i && i < sg.endLine)).map (fun sg => sg.title)

structure P2State where
  nodes : List (String × MNode)
  conns : List MConnection
  sgs : List MSubgraph
deriving Repr

/-- Second parser pass, one line (workflowEditor.js:85-239): skip
directives and subgraph delimiters, then try the process, decision and
start/end node shapes anchored at the line head, then the labeled and
basic connection shapes anywhere in the line; first match wins. -/
def pass2Step (st : P2State) (il : Nat × List Char) : P2State :=
  let i := il.1
  let t := jsTrim il.2
  if t.isEmpty || "%%".data.isPrefixOf t || "graph ".data.isPrefixOf t then st
  else if "subgraph ".data.isPrefixOf t || t = "end".data then st
  else
    let cur := currentTitles st.sgs i
    match attNodeShape '[' ']' t with
    | some (w, lbl, _) =>
      let id := String.mk w
      let node : MNode := match extractTime lbl with
        | some (te, l0) =>
          { id := id, type := NType.process, label := l0, fullLabel := String.mk lbl
            timeEstimate := some te, line := some i, subgraphs := cur }
        | none =>
          { id := id, type := NType.process, label := String.mk lbl
            fullLabel := String.mk lbl, line := some i, subgraphs := cur }
      { st with nodes := setNode st.nodes id node, sgs := addNodeToSgs st.sgs i id }
    | none =>
    match attNodeShape '{' '}' t with
    | some (w, lbl, _) =>
      let id := String.mk w
      let node : MNode := match extractTime lbl with
        | some (te, l0) =>
          { id := id, type := NType.decision, label := l0, fullLabel := String.mk lbl
            timeEstimate := some te, line := some i, subgraphs := cur }
        | none =>
          { id := id, type := NType.decision, label := String.mk lbl
            fullLabel := String.mk lbl, line := some i, subgraphs := cur }
      { st with nodes := setNode st.nodes id node, sgs := addNodeToSgs st.sgs i id }
    | none =>
    match attStartEndShape t with
    | some (w, lbl, _) =>
      let id := String.mk w
      let node : MNode :=
        { id := id, type := NType.startEnd, label := String.mk lbl
          fullLabel := String.mk lbl, line := some i, subgraphs := cur }
      { st with nodes := setNode st.nodes id node, sgs := addNodeToSgs st.sgs i id }
    | none =>
    match scanFirst attLabeledConn t with
    | some (f, lbl, t2) =>
      { st with conns := st.conns ++
          [{ fromId := String.mk f, toId := String.mk t2, label := String.mk lbl, line := i }] }
    | none =>
    match scanFirst attBasicConn t with
    | some (f, t2) =>
      { st with conns := st.conns ++
          [{ fromId := String.mk f, toId := String.mk t2, label := "", line := i }] }
    | none => st

/-- Third-pass recovery of one connection endpoint
(workflowEditor.js:246-317): search the whole source for a process,
start/end or decision declaration of the id (in that order), otherwise
synthesise an implicit placeholder node. -/
def recoverNode (code : List Char) (id : String) : MNode :=
  match scanFirst (attIdShape id.data '[' ']') code with
  | some lbl =>
    match extractTime lbl with
    | some (te, l0) =>
      { id := id, type := NType.process, label := l0, fullLabel := String.mk lbl
        timeEstimate := some te, isRecovered := true }
    | none =>
      { id := id, type := NType.process, label := String.mk lbl
        fullLabel := String.mk lbl, isRecovered := true }
  | none =>
  match scanFirst (attIdStartEnd id.data) code with
  | some lbl =>
    { id := id, type := NType.startEnd, label := String.mk lbl
      fullLabel := String.mk lbl, isRecovered := true }
  | none =>
  match scanFirst (attIdShape id.data '{' '}') code with
  | some lbl =>
    { id := id, type := NType.decision, label := String.mk lbl
      fullLabel := String.mk lbl, isRecovered := true }
  | none =>
    { id := id, type := NType.process, label := id, fullLabel := id, isImplicit := true }

/-- Third parser pass (workflowEditor.js:242-320). -/
def pass3 (code : List Char) (conns : List MConnection)
    (nodes : List (String × MNode)) : List (String × MNode) :=
  conns.foldl (fun ns conn =>
    [conn.fromId, conn.toId].foldl (fun ns eid =>
      if (findNode ns eid).isNone then setNode ns eid (recoverNode code eid) else ns) ns)
    nodes

/-- `%%\s*([A-Za-z0-9_]+)\s*:\s*(.*)` at the head of the text
(workflowEditor.js:328). -/
def attCommentDesc (s : List Char) : Option (String × String) :=
  if "%%".data.isPrefixOf s then
    let (w, r2) := ((s.drop 2).dropWhile isJsWs).span isWordChar
    if w = [] then none else
    match r2.dropWhile isJsWs with
    | ':' :: r4 => some (String.mk w, String.mk (jsTrim r4))
    | _ => none
  else none

/-- Fourth parser pass (workflowEditor.js:323-343): a `%%` comment line
`%% id : description` relabels a node that is implicit or labelled by its
own id. -/
def pass4 (lines : List (List Char)) (nodes : List (String × MNode)) : List (String × MNode) :=
  lines.foldl (fun ns l =>
    let t := jsTrim l
    if "%%".data.isPrefixOf t && containsSub t ":".data then
      match scanFirst attCommentDesc t with
      | some (id, desc) =>
        match findNode ns id with
        | some node =>
          if node.isImplicit || node.label = id then
            setNode ns id { node with label := desc, fullLabel := desc
                                      isImplicit := false, fromComment := true }
          else ns
        | none => ns
      | none => ns
    else ns) nodes

/-- Fifth parser pass (workflowEditor.js:347-373): on each connection's
own line, look for a start/end declaration of the target id and replace
that node outright. -/
def pass5 (lines : List (List Char)) (conns : List MConnection)
    (nodes : List (String × MNode)) : List (String × MNode) :=
  conns.foldl (fun ns conn =>
    match lines[conn.line]? with
    | some l =>
      match scanFirst (attIdStartEnd conn.toId.data) l with
      | some lbl =>
        if conn.toId ≠ "" then
          setNode ns conn.toId
            { id := conn.toId, type := NType.startEnd, label := String.mk lbl
              fullLabel := String.mk lbl, isRecovered := true
              foundInConnection := true, line := some conn.line }
        else ns
      | none => ns
    | none => ns) nodes

/-- All matches of the global start/end shape regex over the whole source
(workflowEditor.js:376-378), resuming after each match. -/
def scanAllStartEnd : Nat → List Char → List (List Char × List Char)
  | 0, _ => []
  | _ + 1, [] => []
  | fuel + 1, c :: rest =>
    match attStartEndShape (c :: rest) with
    | some (w, lbl, k) => (w, lbl) :: scanAllStartEnd fuel ((c :: rest).drop k)
    | none => scanAllStartEnd fuel rest

/-- Final full-source scan (workflowEditor.js:375-393): add or overwrite
start/end nodes that are still missing or implicit. -/
def fullScanPass (code : List Char) (nodes : List (String × MNode)) : List (String × MNode) :=
  (scanAllStartEnd (code.length + 1) code).foldl (fun ns m =>
    let id := String.mk m.1
    let keep := match findNode ns id with
      | none => true
      | some n => n.isImplicit
    if keep then
      setNode ns id
        { id := id, type := NType.startEnd, label := String.mk m.2
          fullLabel := String.mk m.2, isRecovered := true, foundInFullScan := true }
    else ns) nodes

/-- Sixth parser pass (workflowEditor.js:396-405): a single-letter node
labelled by its own id inside a subgraph borrows the subgraph title. -/
def pass6 (nodes : List (String × MNode)) : List (String × MNode) :=
  nodes.map (fun p =>
    let n := p.2
    if p.1.length = 1 && n.label = p.1 && !n.subgraphs.isEmpty then
      let t := (n.subgraphs.headD "") ++ " Node " ++ p.1
      (p.1, { n with label := t, fullLabel := t, inferredFromSubgraph := true })
    else p)

/-- `parseMermaidDiagram` (workflowEditor.js:16-461); the `!diagramCode`
guard is the empty-string test. -/
def parseMermaidDiagram (diagramCode : String) : ParsedDiagram :=
  if diagramCode = "" then { nodes := [], connections := [], subgraphs := [] }
  else
    let code := diagramCode.data
    let lines := splitOnNl code
    let sgs0 := pass1 lines
    let st := lines.enum.foldl pass2Step { nodes := [], conns := [], sgs := sgs0 }
    let nodes := pass3 code st.conns st.nodes
    let nodes := pass4 lines nodes
    let nodes := pass5 lines st.conns nodes
    let nodes := fullScanPass code nodes
    let nodes := pass6 nodes
    { nodes := nodes, connections := st.conns, subgraphs := st.sgs }

/-! ## Diagram mutators (workflowEditor.js:477-833) -/

/-- JS `Array.prototype.splice(pos, 0, x)`: insert at `pos`, appending
when `pos` exceeds the length. -/
def jsInsertAt (lines : List (List Char)) (pos : Nat) (x : List Char) : List (List Char) :=
  lines.take pos ++ [x] ++ lines.drop pos

/-- A line that defines a node and is not a connection — trimmed line
matching `^[A-Za-z0-9_]+\s*\[`, `^[A-Za-z0-9_]+\s*\{` or
`^[A-Za-z0-9_]+\s*\(\[` and not containing `-->`
(workflowEditor.js:510-518). -/
def isNodeDefLine (l : List Char) : Bool :=
  let t := jsTrim l
  let (w, r) := t.span isWordChar
  if w = [] then false else
  let r1 := r.dropWhile isJsWs
  (match r1 with
   | '[' :: _ => true
   | '{' :: _ => true
   | '(' :: '[' :: _ => true
   | _ => false) && !containsSub t "-->".data

/-- Index of the last node-definition line (0 when there is none), the
insertion anchor used when materialising an implicit node. -/
def lastNodeDefIdx (lines : List (List Char)) : Nat :=
  lines.enum.foldl (fun acc il => if isNodeDefLine il.2 then il.1 else acc) 0

/-- Length of a `NODEID\s*\[\s*"([^"]+)"\s*\]` match with a fixed literal
id at the head of the text (the `nodePattern` of
`updateNodeTimeEstimate`). -/
def attIdShapeSpan (nodeId : List Char) (s : List Char) : Option Nat :=
  if nodeId.isPrefixOf s then
    let (ws1, r2) := (s.drop nodeId.length).span isJsWs
    match r2 with
    | '[' :: r3 =>
      let (ws2, r4) := r3.span isJsWs
      match r4 with
      | '"' :: r5 =>
        let (lbl, r6) := r5.span (fun c => c ≠ '"')
        if lbl = [] then none else
        match r6 with
        | '"' :: r7 =>
          let (ws3, r8) := r7.span isJsWs
          match r8 with
          | ']' :: _ =>
            some (nodeId.length + ws1.length + 1 + ws2.length + 1
              + lbl.length + 1 + ws3.length + 1)
          | _ => none
        | _ => none
      | _ => none
    | _ => none
  else none

/-- Leftmost match of a head-anchored attempt, with its start offset. -/
def findSpanGo (att : List Char → Option β) : Nat → List Char → Option (Nat × β)
  | _, [] => none
  | pos, c :: rest =>
    match att (c :: rest) with
    | some b => some (pos, b)
    | none => findSpanGo att (pos + 1) rest

/-- The `timeEstimatePattern`
`(NODEID\s*\[\s*"LABEL\s*)\([^)]+\)(\s*"\s*\])` of
`updateNodeTimeEstimate` (workflowEditor.js:604), with the node label
embedded literally (the labels arising here contain no regex
metacharacters).  Returns, relative to the attempt position, the offset
and length of the parenthesised clause. -/
def attTimeEstSpan (nodeId label : List Char) (s : List Char) : Option (Nat × Nat) :=
  if nodeId.isPrefixOf s then
    let (ws1, r2) := (s.drop nodeId.length).span isJsWs
    match r2 with
    | '[' :: r3 =>
      let (ws2, r4) := r3.span isJsWs
      match r4 with
      | '"' :: r5 =>
        if label.isPrefixOf r5 then
          let (ws3, r7) := (r5.drop label.length).span isJsWs
          match r7 with
          | '(' :: r8 =>
            let (c, r9) := r8.span (fun x => x ≠ ')')
            if c = [] then none else
            match r9 with
            | ')' :: r10 =>
              let (_, r11) := r10.span isJsWs
              match r11 with
              | '"' :: r12 =>
                match (r12.span isJsWs).2 with
                | ']' :: _ =>
                  some (nodeId.length + ws1.length + 1 + ws2.length + 1
                          + label.length + ws3.length,
                        1 + c.length + 1)
                | _ => none
              | _ => none
            | _ => none
          | _ => none
        else none
      | _ => none
    | _ => none
  else none

/-- `node.label || nodeId` (JS falsiness of the empty string). -/
def labelOrId (label id : String) : String :=
  if label = "" then id else label

/-- `updateNodeTimeEstimate` (workflowEditor.js:477-629).  Implicit or
line-less nodes are first materialised: a fresh declaration carrying the
label (and, for process nodes, the new estimate) is inserted after the
last node-definition line.  Explicit process nodes get their declaration
line rewritten; decision and start/end nodes are left unchanged (the
source only warns).  Every result is re-validated. -/
def updateNodeTimeEstimate (diagramCode nodeId newTimeEstimate : String) :
    Except String String :=
  let parsed := parseMermaidDiagram diagramCode
  match findNode parsed.nodes nodeId with
  | none => .error ("Node with ID \"" ++ nodeId ++ "\" not found in diagram")
  | some node =>
    let lines := splitOnNl diagramCode.data
    if node.line.isNone || node.isImplicit then
      let insertPosition := lastNodeDefIdx lines
      let lbl := labelOrId node.label nodeId
      let newDef : List Char := match node.type with
        | .process =>
          nodeId.data ++ ['[', '"'] ++ lbl.data ++ " (".data ++ newTimeEstimate.data
            ++ [')', '"', ']']
        | .startEnd => nodeId.data ++ ['(', '[', '"'] ++ lbl.data ++ ['"', ']', ')']
        | .decision => nodeId.data ++ ['{', '"'] ++ lbl.data ++ ['"', '}']
      let newLines := jsInsertAt lines (insertPosition + 1) newDef
      .ok ( validateAndFixMermaidSyntax (String.mk (joinNl newLines)))
    else
      match node.type with
      | .process =>
        let ln := node.line.getD 0
        let currentLine := (lines[ln]?).getD []
        match findSpanGo (attIdShapeSpan nodeId.data) 0 currentLine with
        | none => .error ("Could not parse node syntax for node " ++ nodeId)
        | some (spanStart, spanLen) =>
          let newLine :=
            if node.timeEstimate.isNone then
              replaceFirst currentLine
                (nodeId.data ++ ['[', '"'] ++ node.label.data ++ ['"', ']'])
                (nodeId.data ++ ['[', '"'] ++ node.label.data ++ " (".data
                  ++ newTimeEstimate.data ++ [')', '"', ']'])
            else if node.fullLabel ≠ "" && containsSub node.fullLabel.data ['('] then
              replaceFirst currentLine
                (nodeId.data ++ ['[', '"'] ++ node.fullLabel.data ++ ['"', ']'])
                (nodeId.data ++ ['[', '"'] ++ node.label.data ++ " (".data
                  ++ newTimeEstimate.data ++ [')', '"', ']'])
            else
              match findSpanGo (attTimeEstSpan nodeId.data node.label.data) 0 currentLine with
              | some (pos, off, len) =>
                currentLine.take (pos + off) ++ ['('] ++ newTimeEstimate.data ++ [')']
                  ++ currentLine.drop (pos + off + len)
              | none =>
                currentLine.take spanStart
                  ++ (nodeId.data ++ ['[', '"'] ++ node.label.data ++ " (".data
                      ++ newTimeEstimate.data ++ [')', '"', ']'])
                  ++ currentLine.drop (spanStart + spanLen)
          .ok ( validateAndFixMermaidSyntax (String.mk (joinNl (lines.set ln newLine))))
      | _ => .ok ( validateAndFixMermaidSyntax (String.mk (joinNl lines)))

/-- The single-line edit performed by `updateNodeLabel` before
re-validation (workflowEditor.js:648-666): replace the declaration text of
the node on its own line, preserving the time-estimate suffix for process
nodes. -/
def updateNodeLabelEditAt (lines : List (List Char)) (nodeId newLabel : String)
    (node : MNode) (ln : Nat) : List (List Char) :=
  let timeEstimate : List Char := match node.timeEstimate with
    | some te => " (".data ++ te.data ++ [')']
    | none => []
  let cur := (lines[ln]?).getD []
  let newLine := match node.type with
    | .process =>
      replaceFirst cur (nodeId.data ++ ['[', '"'] ++ node.fullLabel.data ++ ['"', ']'])
        (nodeId.data ++ ['[', '"'] ++ newLabel.data ++ timeEstimate ++ ['"', ']'])
    | .decision =>
      replaceFirst cur (nodeId.data ++ ['{', '"'] ++ node.fullLabel.data ++ ['"', '}'])
        (nodeId.data ++ ['{', '"'] ++ newLabel.data ++ ['"', '}'])
    | .startEnd =>
      replaceFirst cur (nodeId.data ++ ['(', '[', '"'] ++ node.fullLabel.data ++ ['"', ']', ')'])
        (nodeId.data ++ ['(', '[', '"'] ++ newLabel.data ++ ['"', ']', ')'])
  lines.set ln newLine

/-- `updateNodeLabel` (workflowEditor.js:638-670).  A node without a
source line would make the source throw a `TypeError`
(`lines[undefined].replace`); that failure is embedded as an error. -/
def updateNodeLabel (diagramCode nodeId newLabel : String) : Except String String :=
  let parsed := parseMermaidDiagram diagramCode
  match findNode parsed.nodes nodeId with
  | none => .error ("Node with ID \"" ++ nodeId ++ "\" not found in diagram")
  | some node =>
    match node.line with
    | none => .error "TypeError: node has no source line"
    | some ln =>
      let lines := splitOnNl diagramCode.data
      .ok ( validateAndFixMermaidSyntax
        (String.mk (joinNl (updateNodeLabelEditAt lines nodeId newLabel node ln))))

def reservedKeywords : List String :=
  ["end", "graph", "subgraph", "style", "class", "classDef"]

def toLowerStr (s : String) : String :=
  String.mk (s.data.map Char.toLower)

/-- Id resolution of `addNode` (workflowEditor.js:727-733): the requested
id, or `step<n+1>` when absent (or empty, which is falsy in JS), with a
`Node` suffix appended when the id is a reserved keyword. -/
def resolvedAddNodeId (nodes : List (String × MNode)) (requested : Option String) : String :=
  let base := match requested with
    | some s => if s = "" then "step" ++ toString (nodes.length + 1) else s
    | none => "step" ++ toString (nodes.length + 1)
  if reservedKeywords.contains (toLowerStr base) then base ++ "Node" else base

structure AddNodeDetails where
  id : Option String := none
  label : String
  timeEstimate : Option String := none
  type : NType := NType.process
  connectFrom : Option String := none
  connectTo : Option String := none
  connectionLabel : Option String := none
deriving Repr

/-- `addNode` (workflowEditor.js:722-788): resolve the id, fail on a
collision with the parsed model, insert the declaration after the last
declared node's line (floor 1, i.e. after the graph directive), then the
optional incoming and outgoing connection lines, and re-validate. -/
def addNode (diagramCode : String) (nodeDetails : AddNodeDetails) : Except String String :=
  let parsed := parseMermaidDiagram diagramCode
  let lines := splitOnNl diagramCode.data
  let nodeId := resolvedAddNodeId parsed.nodes nodeDetails.id
  match findNode parsed.nodes nodeId with
  | some _ => .error ("Node with ID \"" ++ nodeId ++ "\" already exists")
  | none =>
    let timeEstimate : List Char := match nodeDetails.timeEstimate with
      | some te => if te = "" then [] else " (".data ++ te.data ++ [')']
      | none => []
    let nodeDefinition : List Char := match nodeDetails.type with
      | .decision => nodeId.data ++ ['{', '"'] ++ nodeDetails.label.data ++ ['"', '}']
      | .startEnd => nodeId.data ++ ['(', '[', '"'] ++ nodeDetails.label.data ++ ['"', ']', ')']
      | .process => nodeId.data ++ ['[', '"'] ++ nodeDetails.label.data ++ timeEstimate ++ ['"', ']']
    let insertPosition := parsed.nodes.foldl (fun acc p =>
      match p.2.line with
      | some l => if acc < l then l else acc
      | none => acc) 1
    let lines1 := jsInsertAt lines (insertPosition + 1) nodeDefinition
    let connLabel : Option String := match nodeDetails.connectionLabel with
      | some l => if l = "" then none else some l
      | none => none
    let labelPart : List Char := match connLabel with
      | some l => ['|', '"'] ++ l.data ++ ['"', '|', ' ']
      | none => [' ']
    let afterFrom : List (List Char) × Nat := match nodeDetails.connectFrom with
      | some f =>
        if f = "" then (lines1, insertPosition + 2)
        else
          (jsInsertAt lines1 (insertPosition + 2)
            (f.data ++ " -->".data ++ labelPart ++ nodeId.data),
           insertPosition + 3)
      | none => (lines1, insertPosition + 2)
    let lines2 := match nodeDetails.connectTo with
      | some t2 =>
        if t2 = "" then afterFrom.1
        else
          jsInsertAt afterFrom.1 afterFrom.2
            (nodeId.data ++ " -->".data ++ labelPart ++ t2.data)
      | none => afterFrom.1
    .ok ( validateAndFixMermaidSyntax (String.mk (joinNl lines2)))

/-- `removeNode` (workflowEditor.js:796-833): fail on an unknown id, fail
when the model holds two nodes or fewer, otherwise drop the node's
declaration line and every connection line touching it; when the removed
id is the reserved closer `end`, rename other word-bounded `end`
occurrences to `endNode` first, then re-validate. -/
def removeNode (diagramCode nodeId : String) : Except String String :=
  let parsed := parseMermaidDiagram diagramCode
  match findNode parsed.nodes nodeId with
  | none => .error ("Node with ID \"" ++ nodeId ++ "\" not found")
  | some node =>
    if parsed.nodes.length ≤ 2 then
      .error "Cannot remove node: diagram must have at least 2 nodes"
    else
      let lines := splitOnNl diagramCode.data
      let toRemove : List Nat :=
        (match node.line with
          | some l => [l]
          | none => []) ++
        ((parsed.connections.filter (fun c => c.fromId = nodeId || c.toId = nodeId)).map
          (fun c => c.line))
      let updatedLines := (lines.enum.filter (fun il => !(toRemove.contains il.1))).map
        (fun il => il.2)
      let updated := joinNl updatedLines
      let updated := if nodeId = "end" then runReplace attEndWord updated else updated
      .ok ( validateAndFixMermaidSyntax (String.mk updated))

/-! ## `utils/documentEditor.js`

The source parses HTML with JSDOM, an external library; the DOM layer is
therefore not code of this repository.  Modelled from the spec: the
document format surface is "standard table/row/cell markup with optional
caption" (spec §6), so an HTML document is embedded as its table
structure — a list of tables, each a list of rows of cells, a cell
carrying its markup, spans and header flag.  The heading-based and
spanning-first-cell title fallbacks of the parser are heuristics that do
not affect coordinates; the caption/placeholder title chain is kept.  The
index-validation and single-cell-update logic below is translated from
`documentEditor.js` itself. -/

structure DCell where
  content : String
  colSpan : Nat := 1
  rowSpan : Nat := 1
  isHeader : Bool := false
deriving DecidableEq, Repr, Inhabited

structure DRow where
  cells : List DCell
deriving DecidableEq, Repr, Inhabited

structure DTable where
  caption : Option String := none
  rows : List DRow
deriving DecidableEq, Repr, Inhabited

structure HtmlDoc where
  tables : List DTable
deriving DecidableEq, Repr, Inhabited

structure PRow where
  cells : List DCell
  rowIndex : Nat
deriving DecidableEq, Repr, Inhabited

structure PSection where
  title : String
  tableIndex : Nat
  rows : List PRow
deriving DecidableEq, Repr, Inhabited

structure ParsedDocument where
  sections : List PSection
deriving DecidableEq, Repr, Inhabited

/-- `parseDocumentContent` (documentEditor.js:9-142) on the table
structure: one section per table that still has rows after skipping a
leading spanning title row and empty rows; `rowIndex` is the row's
position in the original table, the stable handle used by the mutators. -/
def parseDocumentContent (doc : HtmlDoc) : ParsedDocument :=
  { sections := doc.tables.enum.filterMap (fun tp =>
      let t := tp.2
      let rows := t.rows.enum.filterMap (fun rp =>
        let r := rp.2
        if rp.1 = 0 then
          match r.cells.head? with
          | some c =>
            if 1 < c.colSpan then none
            else some { cells := r.cells, rowIndex := rp.1 }
          | none => none
        else if r.cells.isEmpty then none
        else some { cells := r.cells, rowIndex := rp.1 })
      if rows.isEmpty then none
      else some
        { title := t.caption.getD ("Section " ++ toString (tp.1 + 1))
          tableIndex := tp.1
          rows := rows }) }

structure CellUpdate where
  sectionIndex : Int
  rowIndex : Int
  cellIndex : Int
  newContent : String
deriving Repr

/-- `updateDocumentCell` (documentEditor.js:154-210): re-parse, validate
the three coordinates against the parsed model (failing with an error
naming the invalid index), then apply exactly one cell write to the
document tree and return it.  The JS coordinates are arbitrary numbers,
hence `Int` here. -/
def updateDocumentCell (doc : HtmlDoc) (u : CellUpdate) : Except String HtmlDoc :=
  let parsed := parseDocumentContent doc
  if u.sectionIndex < 0 || (parsed.sections.length : Int) ≤ u.sectionIndex then
    .error ("Invalid section index: " ++ toString u.sectionIndex)
  else
    let sec := parsed.sections.getD u.sectionIndex.toNat default
    if u.rowIndex < 0 || (sec.rows.length : Int) ≤ u.rowIndex then
      .error ("Invalid row index: " ++ toString u.rowIndex)
    else
      let row := sec.rows.getD u.rowIndex.toNat default
      if u.cellIndex < 0 || (row.cells.length : Int) ≤ u.cellIndex then
        .error ("Invalid cell index: " ++ toString u.cellIndex)
      else
        match doc.tables[sec.tableIndex]? with
        | none => .error ("Table with index " ++ toString sec.tableIndex ++ " not found")
        | some targetTable =>
          match targetTable.rows[row.rowIndex]? with
          | none => .error ("Row with index " ++ toString row.rowIndex
              ++ " not found in table " ++ toString sec.tableIndex)
          | some targetRow =>
            match targetRow.cells[u.cellIndex.toNat]? with
            | none => .error ("Cell with index " ++ toString u.cellIndex
                ++ " not found in row " ++ toString row.rowIndex)
            | some cell =>
              let newRow : DRow :=
                { targetRow with cells :=
                    targetRow.cells.set u.cellIndex.toNat { cell with content := u.newContent } }
              let newTable : DTable :=
                { targetTable with rows := targetTable.rows.set row.rowIndex newRow }
              .ok { doc with tables := doc.tables.set sec.tableIndex newTable }

/-! ## Claim theorems -/

/-- C1: the syntax validator is claimed idempotent on every source; on the
empty source the claim fails — the empty-input fallback
`graph TD\nA[No diagram available]` is not a fixed point, because a second
run quotes the spaced bracket label. -/
theorem C1_validator_not_idempotent_on_empty :
    validateAndFixMermaidSyntax ( validateAndFixMermaidSyntax "") ≠
      validateAndFixMermaidSyntax "" ∧
    validateAndFixMermaidSyntax "" = "graph TD\nA[No diagram available]" ∧
    validateAndFixMermaidSyntax ( validateAndFixMermaidSyntax "") =
      "graph TD\nA[\"No diagram available\"]" := by
  refine ⟨?_, by decide, by decide⟩
  decide

/-- C2 counterexample: on the source `end` the validator keeps the stray
closer line, so its output has one bare `end` closer line and no
subgraph opener line — the claimed opener/closer balance fails. -/
theorem C2_balance_counterexample :
    openerLineCount ( validateAndFixMermaidSyntax "end") = 0 ∧
    closerLineCount ( validateAndFixMermaidSyntax "end") = 1 := by
  decide

/-- Equality of `Except` results is decidable componentwise (needed to
evaluate the mutators' results on concrete inputs). -/
instance {e a : Type} [DecidableEq e] [DecidableEq a] : DecidableEq (Except e a)
  | Except.ok x, Except.ok y =>
    if h : x = y then Decidable.isTrue (by rw [h])
    else Decidable.isFalse (fun he => h (Except.ok.inj he))
  | Except.error x, Except.error y =>
    if h : x = y then Decidable.isTrue (by rw [h])
    else Decidable.isFalse (fun he => h (Except.error.inj he))
  | Except.ok _, Except.error _ => Decidable.isFalse (fun he => Except.noConfusion he)
  | Except.error _, Except.ok _ => Decidable.isFalse (fun he => Except.noConfusion he)

/-- C3: materialization of the implicit node `B` of `A-->B`, and the
unknown-id failure of `updateNodeTimeEstimate` on any source. -/
theorem C3_implicit_materialization_and_unknown_id :
    updateNodeTimeEstimate "A-->B" "B" "10 min" =
      .ok "graph TD\nA-->B\nB[\"B (10 min)\"]" ∧
    ((findNode (parseMermaidDiagram "graph TD\nA-->B\nB[\"B (10 min)\"]").nodes "B").map
        (fun n => (n.isImplicit, n.label, n.timeEstimate)) =
      some (false, "B", some "10 min")) ∧
    (∀ src id est : String, findNode (parseMermaidDiagram src).nodes id = none →
      updateNodeTimeEstimate src id est =
        .error ("Node with ID \"" ++ id ++ "\" not found in diagram")) := by
  refine ⟨by decide, by decide, ?_⟩
  intro src id est h
  simp [updateNodeTimeEstimate, h]

/-- C3 witness: the unknown-id clause at the concrete source `A-->B` and
the absent id `Z`. -/
theorem C3_witness :
    updateNodeTimeEstimate "A-->B" "Z" "5 min" =
      .error ("Node with ID \"" ++ "Z" ++ "\" not found in diagram") :=
  C3_implicit_materialization_and_unknown_id.2.2 "A-->B" "Z" "5 min" (by decide)

/-- C4: `removeNode` fails (with the node-not-found or the two-node-floor
error) for every node id whenever the parsed model holds at most two
nodes; being a pure function of the source string, it leaves the caller's
string untouched. -/
theorem C4_remove_node_floor :
    ∀ src id : String, (parseMermaidDiagram src).nodes.length ≤ 2 →
      ∃ e, removeNode src id = .error e := by
  intro src id h
  cases hfind : findNode (parseMermaidDiagram src).nodes id with
  | none =>
    exact ⟨"Node with ID \"" ++ id ++ "\" not found", by simp [removeNode, hfind]⟩
  | some node =>
    exact ⟨"Cannot remove node: diagram must have at least 2 nodes",
      by simp [removeNode, hfind, h]⟩

/-- C4 witness: the two-node diagram `A-->B`. -/
theorem C4_witness : ∃ e, removeNode "A-->B" "A" = Except.error e :=
  C4_remove_node_floor "A-->B" "A" (by decide)

/-- C5 counterexample: mutation locality fails for `updateNodeLabel`
because the result is re-piped through the validator, which here rewrites
the unrelated line `B->C` to `B-->C`. -/
theorem C5_locality_counterexample :
    updateNodeLabel "graph TD\nA[\"x\"]\nB->C" "A" "y" =
      .ok "graph TD\nA[\"y\"]\nB-->C" ∧
    (splitOnNl "graph TD\nA[\"x\"]\nB->C".data)[2]? = some "B->C".data ∧
    (splitOnNl "graph TD\nA[\"y\"]\nB-->C".data)[2]? = some "B-->C".data ∧
    "B->C".data ≠ "B-->C".data := by
  refine ⟨by decide, by decide, by decide, by decide⟩

/-- C5 amended: before re-validation, `updateNodeLabel` edits exactly the
node's declaration line — every other line of the split source is
byte-identical — and the returned string is the validator applied to that
single-line edit. -/
theorem C5_prevalidation_locality :
    ∀ (src id lbl : String) (n : MNode) (ln : Nat),
      findNode (parseMermaidDiagram src).nodes id = some n →
      n.line = some ln →
      updateNodeLabel src id lbl =
        .ok ( validateAndFixMermaidSyntax
          (String.mk (joinNl (updateNodeLabelEditAt (splitOnNl src.data) id lbl n ln)))) ∧
      ∀ j, j ≠ ln →
        (updateNodeLabelEditAt (splitOnNl src.data) id lbl n ln)[j]? =
          (splitOnNl src.data)[j]? := by
  intro src id lbl n ln hfind hline
  constructor
  · simp [updateNodeLabel, hfind, hline]
  · intro j hj
    simp only [updateNodeLabelEditAt]
    exact List.getElem?_set_ne (Ne.symm hj)

/-- C5 witness: the locality clause at a concrete source and node. -/
theorem C5_witness :
    (updateNodeLabelEditAt (splitOnNl "graph TD\nA[\"x\"]\nA-->B".data) "A" "z"
      { id := "A", type := NType.process, label := "x", fullLabel := "x", line := some 1 } 1)[2]? =
      (splitOnNl "graph TD\nA[\"x\"]\nA-->B".data)[2]? :=
  (C5_prevalidation_locality "graph TD\nA[\"x\"]\nA-->B" "A" "z"
    { id := "A", type := NType.process, label := "x", fullLabel := "x", line := some 1 } 1
    (by decide) (by decide)).2 2 (by decide)

/-- A generated `step<k>` id never collides with a reserved keyword. -/
theorem step_id_not_reserved (n : Nat) :
    reservedKeywords.contains (toLowerStr ("step" ++ toString n)) = false := by
  have h : toLowerStr ("step" ++ toString n) =
      String.mk ('s' :: 't' :: 'e' :: 'p' :: (toString n).data.map Char.toLower) := by
    show String.mk (("step" ++ toString n).data.map Char.toLower) = _
    rw [String.data_append]
    rfl
  rw [h]
  simp [reservedKeywords, List.contains, String.ext_iff]

/-- C6 counterexample: on a diagram with nodes `A` and `B`, the first
unused letter would be `C`, but `addNode` with the id omitted generates
`step3` (one more than the node count). -/
theorem C6_generated_id_counterexample :
    resolvedAddNodeId (parseMermaidDiagram "graph TD\nA[\"x\"]\nB[\"y\"]").nodes none =
      "step3" ∧
    addNode "graph TD\nA[\"x\"]\nB[\"y\"]" { label := "L" } =
      .ok "graph TD\nA[\"x\"]\nB[\"y\"]\nstep3[\"L\"]" ∧
    findNode (parseMermaidDiagram "graph TD\nA[\"x\"]\nB[\"y\"]\nstep3[\"L\"]").nodes "C" =
      none ∧
    ("step3" : String) ≠ "C" := by
  refine ⟨by decide, by decide, by decide, by decide⟩

/-- C6 amended: the generated id is `step<n+1>` over the `n` parsed nodes;
a reserved requested id is suffixed with `Node`; `addNode` fails exactly
when the resolved id already exists in the parsed model and succeeds
otherwise. -/
theorem C6_addNode_id_policy :
    ∀ (src : String) (d : AddNodeDetails),
      (d.id = none →
        resolvedAddNodeId (parseMermaidDiagram src).nodes d.id =
          "step" ++ toString ((parseMermaidDiagram src).nodes.length + 1)) ∧
      (∀ r, d.id = some r → r ≠ "" → reservedKeywords.contains (toLowerStr r) = true →
        resolvedAddNodeId (parseMermaidDiagram src).nodes d.id = r ++ "Node") ∧
      (findNode (parseMermaidDiagram src).nodes
          (resolvedAddNodeId (parseMermaidDiagram src).nodes d.id) ≠ none →
        ∃ e, addNode src d = .error e) ∧
      (findNode (parseMermaidDiagram src).nodes
          (resolvedAddNodeId (parseMermaidDiagram src).nodes d.id) = none →
        ∃ out, addNode src d = .ok out) := by
  intro src d
  refine ⟨?_, ?_, ?_, ?_⟩
  · intro hid
    simp only [resolvedAddNodeId, hid]
    rw [if_neg (by simpa using
      step_id_not_reserved ((parseMermaidDiagram src).nodes.length + 1))]
  · intro r hid hne hres
    simp only [resolvedAddNodeId, hid]
    rw [if_neg hne, if_pos hres]
  · intro hcoll
    cases hfind : findNode (parseMermaidDiagram src).nodes
        (resolvedAddNodeId (parseMermaidDiagram src).nodes d.id) with
    | none => exact absurd hfind hcoll
    | some x =>
      exact ⟨"Node with ID \"" ++ resolvedAddNodeId (parseMermaidDiagram src).nodes d.id
        ++ "\" already exists", by simp [addNode, hfind]⟩
  · intro hfind
    cases h2 : addNode src d with
    | ok out => exact ⟨out, rfl⟩
    | error e =>
      simp only [addNode, hfind] at h2
      exact Except.noConfusion h2

/-- C6 witness: the collision clause at a concrete diagram where the
requested id `A` already exists. -/
theorem C6_witness :
    ∃ e, addNode "graph TD\nA[\"x\"]\nB[\"y\"]" { id := some "A", label := "L" } =
      Except.error e :=
  (C6_addNode_id_policy "graph TD\nA[\"x\"]\nB[\"y\"]"
    { id := some "A", label := "L" }).2.2.1 (by decide)

/-- C7: the canonical parse/format pair, and the fixed pattern precedence
of `parseTimeToMinutes` — week range first, then single weeks, day range,
single days, and the hours/minutes combination last — with the 8-hour-day
and 5-day-week working conventions. -/
theorem C7_time_parse_format_inverse :
    parseTimeToMinutes "2 hours 30 minutes" = some 150 ∧
    formatMinutesToTime 150 = "2 hours 30 minutes" ∧
    (∀ (s : String) (a b : Nat), s ≠ "" → s ≠ "Unknown" →
      scanFirst (tryRangeUnit "week".data) s.data = some (a, b) →
      parseTimeToMinutes s = some ((((a : ℚ) + b) / 2) * (5 * 8 * 60))) ∧
    (∀ (s : String) (w : Nat), s ≠ "" → s ≠ "Unknown" →
      scanFirst (tryRangeUnit "week".data) s.data = none →
      scanFirst (trySingleUnit "week".data) s.data = some w →
      parseTimeToMinutes s = some ((w : ℚ) * (5 * 8 * 60))) ∧
    (∀ (s : String) (a b : Nat), s ≠ "" → s ≠ "Unknown" →
      scanFirst (tryRangeUnit "week".data) s.data = none →
      scanFirst (trySingleUnit "week".data) s.data = none →
      scanFirst (tryRangeUnit "day".data) s.data = some (a, b) →
      parseTimeToMinutes s = some ((((a : ℚ) + b) / 2) * (8 * 60))) ∧
    (∀ (s : String) (dd : Nat), s ≠ "" → s ≠ "Unknown" →
      scanFirst (tryRangeUnit "week".data) s.data = none →
      scanFirst (trySingleUnit "week".data) s.data = none →
      scanFirst (tryRangeUnit "day".data) s.data = none →
      scanFirst (trySingleUnit "day".data) s.data = some dd →
      parseTimeToMinutes s = some ((dd : ℚ) * (8 * 60))) ∧
    (∀ (s : String) (h m : ℚ), s ≠ "" → s ≠ "Unknown" →
      scanFirst (tryRangeUnit "week".data) s.data = none →
      scanFirst (trySingleUnit "week".data) s.data = none →
      scanFirst (tryRangeUnit "day".data) s.data = none →
      scanFirst (trySingleUnit "day".data) s.data = none →
      scanFirst (tryUnitNumber 'h') s.data = some h →
      scanFirst (tryUnitNumber 'm') s.data = some m →
      0 < h * 60 + m →
      parseTimeToMinutes s = some (h * 60 + m)) := by
  refine ⟨?_, ?_, ?_, ?_, ?_, ?_, ?_⟩
  · have hg : (decide ("2 hours 30 minutes" = "")
        || decide ("2 hours 30 minutes" = "Unknown")) = false := by decide
    have h1 : scanFirst (tryRangeUnit "week".data) "2 hours 30 minutes".data = none := by
      decide
    have h2 : scanFirst (trySingleUnit "week".data) "2 hours 30 minutes".data = none := by
      decide
    have h3 : scanFirst (tryRangeUnit "day".data) "2 hours 30 minutes".data = none := by
      decide
    have h4 : scanFirst (trySingleUnit "day".data) "2 hours 30 minutes".data = none := by
      decide
    have h5 : scanFirst (tryUnitNumber 'h') "2 hours 30 minutes".data = some 2 := by decide
    have h6 : scanFirst (tryUnitNumber 'm') "2 hours 30 minutes".data = some 30 := by decide
    simp only [parseTimeToMinutes, hg, Bool.false_eq_true, if_false, h1, h2, h3, h4, h5, h6]
    norm_num
  · have h1 : ¬ ((150 : ℚ) < 0) := by norm_num
    have h2 : ¬ ((60 * 24 : ℚ) ≤ 150) := by norm_num
    have h3 : ((60 : ℚ) ≤ 150) := by norm_num
    have hfl : (⌊(150 : ℚ) / 60⌋ : ℤ) = 2 := by norm_num [Int.floor_eq_iff]
    have hmod : jsMod (150 : ℚ) 60 = 30 := by norm_num [jsMod, Int.floor_eq_iff]
    have hr : jsRound (30 : ℚ) = 30 := by norm_num [jsRound, Int.floor_eq_iff]
    simp only [formatMinutesToTime, if_neg h1, if_neg h2, if_pos h3, hfl, hmod, hr]
    decide
  · intro s a b h1 h2 h3
    simp [parseTimeToMinutes, h1, h2, h3]
  · intro s w h1 h2 h3 h4
    simp [parseTimeToMinutes, h1, h2, h3, h4]
  · intro s a b h1 h2 h3 h4 h5
    simp [parseTimeToMinutes, h1, h2, h3, h4, h5]
  · intro s dd h1 h2 h3 h4 h5 h6
    simp [parseTimeToMinutes, h1, h2, h3, h4, h5, h6]
  · intro s h m h1 h2 h3 h4 h5 h6 h7 h8 h9
    simp [parseTimeToMinutes, h1, h2, h3, h4, h5, h6, h7, h8, h9]

/-- C7 witness: the day-range clause at `20-25 days`
(average 22.5 days at 8 hours a day is 10800 minutes). -/
theorem C7_witness :
    parseTimeToMinutes "20-25 days" = some ((((20 : ℚ) + 25) / 2) * (8 * 60)) :=
  C7_time_parse_format_inverse.2.2.2.2.1 "20-25 days" 20 25
    (by decide) (by decide) (by decide) (by decide) (by decide)

/-- C10 counterexample: `0 weeks` parses to an explicitly stated zero
duration, yet `parseTimeToMinutes` returns `0`, not `null` — the
week/day early-return paths skip the positivity guard. -/
theorem C10_zero_weeks_counterexample :
    parseTimeToMinutes "0 weeks" = some 0 ∧ parseTimeToMinutes "0 weeks" ≠ none := by
  have hg : (decide (("0 weeks" : String) = "")
      || decide (("0 weeks" : String) = "Unknown")) = false := by decide
  have h1 : scanFirst (tryRangeUnit "week".data) "0 weeks".data = none := by decide
  have h2 : scanFirst (trySingleUnit "week".data) "0 weeks".data = some 0 := by decide
  have h : parseTimeToMinutes "0 weeks" = some 0 := by
    simp only [parseTimeToMinutes, hg, Bool.false_eq_true, if_false, h1, h2]
    norm_num
  exact ⟨h, by rw [h]; exact fun hc => Option.noConfusion hc⟩

/-- C10 amended: the hours/minutes fallback path never returns zero (its
guard turns a non-positive total into `null`), so in particular
`0 minutes` and `0 hours` yield `null`; but the week/day early-return
paths can return an exact zero, as `0 weeks` does. -/
theorem C10_zero_total_yields_null_on_fallback :
    (∀ s : String,
      scanFirst (tryRangeUnit "week".data) s.data = none →
      scanFirst (trySingleUnit "week".data) s.data = none →
      scanFirst (tryRangeUnit "day".data) s.data = none →
      scanFirst (trySingleUnit "day".data) s.data = none →
      parseTimeToMinutes s ≠ some 0) ∧
    parseTimeToMinutes "0 minutes" = none ∧
    parseTimeToMinutes "0 hours" = none := by
  have hzmin : parseTimeToMinutes "0 minutes" = none := by
    have hg : (decide (("0 minutes" : String) = "")
        || decide (("0 minutes" : String) = "Unknown")) = false := by decide
    have h1 : scanFirst (tryRangeUnit "week".data) "0 minutes".data = none := by decide
    have h2 : scanFirst (trySingleUnit "week".data) "0 minutes".data = none := by decide
    have h3 : scanFirst (tryRangeUnit "day".data) "0 minutes".data = none := by decide
    have h4 : scanFirst (trySingleUnit "day".data) "0 minutes".data = none := by decide
    have h5 : scanFirst (tryUnitNumber 'h') "0 minutes".data = none := by decide
    have h6 : scanFirst (tryUnitNumber 'm') "0 minutes".data = some 0 := by decide
    simp only [parseTimeToMinutes, hg, Bool.false_eq_true, if_false, h1, h2, h3, h4, h5, h6]
    norm_num
  have hzhr : parseTimeToMinutes "0 hours" = none := by
    have hg : (decide (("0 hours" : String) = "")
        || decide (("0 hours" : String) = "Unknown")) = false := by decide
    have h1 : scanFirst (tryRangeUnit "week".data) "0 hours".data = none := by decide
    have h2 : scanFirst (trySingleUnit "week".data) "0 hours".data = none := by decide
    have h3 : scanFirst (tryRangeUnit "day".data) "0 hours".data = none := by decide
    have h4 : scanFirst (trySingleUnit "day".data) "0 hours".data = none := by decide
    have h5 : scanFirst (tryUnitNumber 'h') "0 hours".data = some 0 := by decide
    have h6 : scanFirst (tryUnitNumber 'm') "0 hours".data = none := by decide
    simp only [parseTimeToMinutes, hg, Bool.false_eq_true, if_false, h1, h2, h3, h4, h5, h6]
    norm_num
  refine ⟨?_, hzmin, hzhr⟩
  intro s h1 h2 h3 h4
  by_cases hg : (s = "" || s = "Unknown") = true
  · simp [parseTimeToMinutes, hg]
  · simp only [parseTimeToMinutes, Bool.not_eq_true] at hg ⊢
    simp only [hg, Bool.false_eq_true, if_false, h1, h2, h3, h4]
    split
    · rename_i hpos
      intro hc
      rw [Option.some.injEq] at hc
      rw [hc] at hpos
      exact lt_irrefl 0 hpos
    · exact fun hc => Option.noConfusion hc

/-- C10 witness: the fallback clause at `0 minutes`. -/
theorem C10_witness : parseTimeToMinutes "0 minutes" ≠ some 0 :=
  C10_zero_total_yields_null_on_fallback.1 "0 minutes"
    (by decide) (by decide) (by decide) (by decide)

/-- C9: `updateDocumentCell` validates the coordinate triple against the
freshly parsed document and fails with an error naming the invalid index —
section first, then row, then cell; as a pure function it returns only the
error, so the caller's document is untouched. -/
theorem C9_document_coordinate_validation :
    ∀ (doc : HtmlDoc) (u : CellUpdate),
      ((u.sectionIndex < 0 ∨
          ((parseDocumentContent doc).sections.length : ℤ) ≤ u.sectionIndex) →
        updateDocumentCell doc u =
          .error ("Invalid section index: " ++ toString u.sectionIndex)) ∧
      (0 ≤ u.sectionIndex →
        u.sectionIndex < ((parseDocumentContent doc).sections.length : ℤ) →
        (u.rowIndex < 0 ∨
          ((((parseDocumentContent doc).sections.getD u.sectionIndex.toNat
              default).rows.length : ℤ) ≤ u.rowIndex)) →
        updateDocumentCell doc u =
          .error ("Invalid row index: " ++ toString u.rowIndex)) ∧
      (0 ≤ u.sectionIndex →
        u.sectionIndex < ((parseDocumentContent doc).sections.length : ℤ) →
        0 ≤ u.rowIndex →
        u.rowIndex < ((((parseDocumentContent doc).sections.getD u.sectionIndex.toNat
            default).rows.length : ℤ)) →
        (u.cellIndex < 0 ∨
          (((((parseDocumentContent doc).sections.getD u.sectionIndex.toNat
                default).rows.getD u.rowIndex.toNat default).cells.length : ℤ)
            ≤ u.cellIndex)) →
        updateDocumentCell doc u =
          .error ("Invalid cell index: " ++ toString u.cellIndex)) := by
  intro doc u
  refine ⟨?_, ?_, ?_⟩
  · intro h
    simp only [updateDocumentCell]
    rw [if_pos (by simp only [Bool.or_eq_true, decide_eq_true_eq]; omega)]
  · intro hs0 hs1 h
    simp only [updateDocumentCell]
    rw [if_neg (by simp only [Bool.or_eq_true, decide_eq_true_eq]; omega),
        if_pos (by simp only [Bool.or_eq_true, decide_eq_true_eq]; omega)]
  · intro hs0 hs1 hr0 hr1 h
    simp only [updateDocumentCell]
    rw [if_neg (by simp only [Bool.or_eq_true, decide_eq_true_eq]; omega),
        if_neg (by simp only [Bool.or_eq_true, decide_eq_true_eq]; omega),
        if_pos (by simp only [Bool.or_eq_true, decide_eq_true_eq]; omega)]

/-- C9 witness: a two-section document and the out-of-range request
`sectionIndex = 99`. -/
theorem C9_witness :
    updateDocumentCell
      { tables := [{ rows := [{ cells := [{ content := "a" }] }] },
                   { rows := [{ cells := [{ content := "b" }] }] }] }
      { sectionIndex := 99, rowIndex := 0, cellIndex := 0, newContent := "x" } =
      Except.error ("Invalid section index: " ++ toString (99 : ℤ)) :=
  (C9_document_coordinate_validation
    { tables := [{ rows := [{ cells := [{ content := "a" }] }] },
                 { rows := [{ cells := [{ content := "b" }] }] }] }
    { sectionIndex := 99, rowIndex := 0, cellIndex := 0, newContent := "x" }).1
    (Or.inr (by decide))

/-- `hasStep` is `false` exactly when no entry carries the key. -/
theorem hasStep_eq_false_iff (l : List StepTime) (k : String) :
    hasStep l k = false ↔ ∀ a ∈ l, a.step ≠ k := by
  simp [hasStep, List.any_eq_true]

/-- `Map.set` on an absent key appends. -/
theorem setStep_of_not_mem (acc : List StepTime) (x : StepTime)
    (h : ∀ a ∈ acc, a.step ≠ x.step) : setStep acc x = acc ++ [x] := by
  induction acc with
  | nil => rfl
  | cons a rest ih =>
    have ha : a.step ≠ x.step := h a (List.mem_cons_self a rest)
    simp only [setStep, if_neg ha, List.cons_append, List.cons.injEq, true_and]
    exact ih (fun b hb => h b (List.mem_cons_of_mem a hb))

/-- Inserting document entries with pairwise distinct keys into an
accumulator free of those keys just appends them in order. -/
theorem docFold_eq_map :
    ∀ (l acc : List StepTime), (l.map (fun s => s.step)).Nodup →
      (∀ e ∈ l, ∀ a ∈ acc, a.step ≠ e.step) →
      l.foldl (fun acc s => setStep acc { s with source := some "document" }) acc =
        acc ++ l.map (fun s => { s with source := some "document" })
  | [], acc, _, _ => by simp
  | s :: l, acc, hnd, hfree => by
    have hpair : (∀ x ∈ l, ¬x.step = s.step) ∧ (l.map (fun s => s.step)).Nodup := by
      simpa using hnd
    have hs : setStep acc { s with source := some "document" } =
        acc ++ [{ s with source := some "document" }] :=
      setStep_of_not_mem acc _ (fun a ha => hfree s (List.mem_cons_self s l) a ha)
    have h2 : ∀ e ∈ l, ∀ a ∈ acc ++ [{ s with source := some "document" }],
        a.step ≠ e.step := by
      intro e he a ha
      rcases List.mem_append.mp ha with ha | ha
      · exact hfree e (List.mem_cons_of_mem s he) a ha
      · have hae : a = { s with source := some "document" } := by simpa using ha
        rw [hae]
        exact fun hc => hpair.1 e he hc.symm
    simp only [List.foldl_cons, hs]
    rw [docFold_eq_map l _ hpair.2 h2]
    simp

/-- The workflow fold only appends, so the accumulator is a prefix of the
result. -/
theorem wfFold_extends :
    ∀ (l acc : List StepTime),
      acc <+: l.foldl (fun acc s =>
        if hasStep acc s.step then acc else acc ++ [{ s with source := some "workflow" }]) acc
  | [], acc => List.prefix_refl acc
  | s :: l, acc => by
    simp only [List.foldl_cons]
    by_cases h : hasStep acc s.step
    · rw [if_pos h]
      exact wfFold_extends l acc
    · rw [if_neg h]
      exact (List.prefix_append acc _).trans (wfFold_extends l _)

/-- A workflow entry whose key is absent from the accumulator and unique
in the workflow list survives the append-if-absent fold. -/
theorem wfFold_mem :
    ∀ (l acc : List StepTime) (e : StepTime), e ∈ l →
      (l.map (fun s => s.step)).Nodup →
      (∀ a ∈ acc, a.step ≠ e.step) →
      ∃ e' ∈ l.foldl (fun acc s =>
          if hasStep acc s.step then acc
          else acc ++ [{ s with source := some "workflow" }]) acc,
        e'.step = e.step ∧ e'.timeMinutes = e.timeMinutes
  | [], _, e, he, _, _ => absurd he (List.not_mem_nil e)
  | s :: l, acc, e, he, hnd, hfree => by
    have hpair : (∀ x ∈ l, ¬x.step = s.step) ∧ (l.map (fun s => s.step)).Nodup := by
      simpa using hnd
    simp only [List.foldl_cons]
    rcases List.mem_cons.mp he with rfl | he'
    · have hh : hasStep acc e.step = false :=
        (hasStep_eq_false_iff acc e.step).mpr hfree
      rw [hh, if_neg (by simp)]
      refine ⟨{ e with source := some "workflow" }, ?_, rfl, rfl⟩
      exact (wfFold_extends l _).subset (by simp)
    · have hstep : ∀ a ∈ (if hasStep acc s.step then acc
          else acc ++ [{ s with source := some "workflow" }]), a.step ≠ e.step := by
        intro a ha
        by_cases h : hasStep acc s.step
        · rw [if_pos h] at ha
          exact hfree a ha
        · rw [if_neg h] at ha
          rcases List.mem_append.mp ha with ha | ha
          · exact hfree a ha
          · have hae : a = { s with source := some "workflow" } := by simpa using ha
            rw [hae]
            exact fun hc => hpair.1 e he' hc.symm
      exact wfFold_mem l _ e he' hpair.2 hstep

/-- The append-if-absent fold preserves key uniqueness. -/
theorem wfFold_nodup :
    ∀ (l acc : List StepTime), (acc.map (fun s => s.step)).Nodup →
      ((l.foldl (fun acc s =>
          if hasStep acc s.step then acc
          else acc ++ [{ s with source := some "workflow" }]) acc).map
        (fun s => s.step)).Nodup
  | [], acc, h => h
  | s :: l, acc, h => by
    simp only [List.foldl_cons]
    by_cases hh : hasStep acc s.step
    · rw [if_pos hh]
      exact wfFold_nodup l acc h
    · rw [if_neg hh]
      refine wfFold_nodup l _ ?_
      have hh' : ∀ a ∈ acc, a.step ≠ s.step :=
        (hasStep_eq_false_iff acc s.step).mp (Bool.eq_false_iff.mpr hh)
      have hni : s.step ∉ acc.map (fun s => s.step) := by
        simp only [List.mem_map, not_exists]
        rintro a
        intro hpair2
        exact hh' a hpair2.1 hpair2.2
      simp only [List.map_append, List.map_cons, List.map_nil]
      exact List.Nodup.append h (List.nodup_singleton _)
        (by simpa [List.disjoint_right] using hni)

/-- A word character is never whitespace. -/
theorem word_not_ws (c : Char) (h : isWordChar c = true) : isJsWs c = false := by
  by_contra hc
  have hws : isJsWs c = true := by simpa using hc
  have h6 : ((((c = ' ' ∨ c = '\t') ∨ c = '\n') ∨ c = '\r') ∨ c = '\x0b') ∨ c = '\x0c' := by
    simpa [isJsWs] using hws
  rcases h6 with ((((rfl | rfl) | rfl) | rfl) | rfl) | rfl <;> exact absurd h (by decide)

/-- `dropWhile` over a run that satisfies the predicate. -/
theorem dropWhile_append_of_all {p : Char → Bool} :
    ∀ (w r : List Char), (∀ c ∈ w, p c = true) → (w ++ r).dropWhile p = r.dropWhile p
  | [], r, _ => rfl
  | c :: w, r, h => by
    rw [List.cons_append, List.dropWhile_cons_of_pos (h c (List.mem_cons_self c w))]
    exact dropWhile_append_of_all w r (fun x hx => h x (List.mem_cons_of_mem c hx))

/-- `dropWhile` on a list that starts (or is empty) with a failing
character. -/
theorem dropWhile_eq_self_of_all {p : Char → Bool} :
    ∀ (l : List Char), (∀ c ∈ l, p c = false) → l.dropWhile p = l
  | [], _ => rfl
  | c :: l, h => List.dropWhile_cons_of_neg (by simp [h c (List.mem_cons_self c l)])

/-- Every list splits as leading whitespace, its trim, and trailing
whitespace. -/
theorem trim_decomp (l : List Char) :
    ∃ w1 w2, l = w1 ++ jsTrim l ++ w2 ∧
      (∀ c ∈ w1, isJsWs c = true) ∧ (∀ c ∈ w2, isJsWs c = true) := by
  refine ⟨l.takeWhile isJsWs, ((l.dropWhile isJsWs).reverse.takeWhile isJsWs).reverse, ?_, ?_, ?_⟩
  · have hX : l = l.takeWhile isJsWs ++ l.dropWhile isJsWs :=
      (List.takeWhile_append_dropWhile isJsWs l).symm
    have hY : l.dropWhile isJsWs =
        jsTrim l ++ ((l.dropWhile isJsWs).reverse.takeWhile isJsWs).reverse := by
      calc l.dropWhile isJsWs
          = ((l.dropWhile isJsWs).reverse).reverse := (List.reverse_reverse _).symm
        _ = ((l.dropWhile isJsWs).reverse.takeWhile isJsWs ++
              (l.dropWhile isJsWs).reverse.dropWhile isJsWs).reverse := by
            rw [List.takeWhile_append_dropWhile]
        _ = ((l.dropWhile isJsWs).reverse.dropWhile isJsWs).reverse ++
              ((l.dropWhile isJsWs).reverse.takeWhile isJsWs).reverse := by
            rw [List.reverse_append]
        _ = jsTrim l ++ ((l.dropWhile isJsWs).reverse.takeWhile isJsWs).reverse := rfl
    rw [List.append_assoc]
    exact hX.trans (congrArg (fun x => List.takeWhile isJsWs l ++ x) hY)
  · exact fun c hc => List.mem_takeWhile_imp hc
  · intro c hc
    exact List.mem_takeWhile_imp (List.mem_reverse.mp hc)

/-- `jsTrim` fixes a list with no whitespace at all. -/
theorem jsTrim_eq_self_of_no_ws (l : List Char) (h : ∀ c ∈ l, isJsWs c = false) :
    jsTrim l = l := by
  rw [jsTrim, dropWhile_eq_self_of_all l h,
    dropWhile_eq_self_of_all l.reverse (fun c hc => h c (List.mem_reverse.mp hc)),
    List.reverse_reverse]

/-- `jsTrim` of whitespace around a literal `end`. -/
theorem jsTrim_ws_end_ws (w1 w2 : List Char)
    (h1 : ∀ c ∈ w1, isJsWs c = true) (h2 : ∀ c ∈ w2, isJsWs c = true) :
    jsTrim (w1 ++ "end".data ++ w2) = "end".data := by
  rw [jsTrim, List.append_assoc, dropWhile_append_of_all w1 _ h1]
  have hstep : ("end".data ++ w2).dropWhile isJsWs = "end".data ++ w2 := by
    rw [show ("end".data ++ w2) = 'e' :: ("nd".data ++ w2) from rfl]
    exact List.dropWhile_cons_of_neg (by decide)
  rw [hstep, List.reverse_append]
  rw [dropWhile_append_of_all w2.reverse _ (fun c hc => h2 c (List.mem_reverse.mp hc))]
  rw [show ("end".data : List Char).reverse = ['d', 'n', 'e'] from rfl]
  rw [List.dropWhile_cons_of_neg (by decide)]
  rfl

/-- `endNode` never matches at a whitespace character. -/
theorem endNode_not_prefix_ws (c : Char) (hc : isJsWs c = true) (l : List Char) :
    "endNode".data.isPrefixOf (c :: l) = false := by
  rw [Bool.eq_false_iff]
  intro hp
  rcases List.isPrefixOf_iff_prefix.mp hp with ⟨t, ht⟩
  have hce : c = 'e' := by
    have h0 := congrArg (fun l => l[0]?) ht
    simpa using h0.symm
  subst hce
  exact absurd hc (by decide)

/-- `replaceFirst` skips over a leading whitespace run when the pattern is
`endNode`. -/
theorem replaceFirst_ws_append :
    ∀ (w rest repl : List Char), (∀ c ∈ w, isJsWs c = true) →
      replaceFirst (w ++ rest) "endNode".data repl = w ++ replaceFirst rest "endNode".data repl
  | [], _, _, _ => rfl
  | c :: w, rest, repl, h => by
    rw [List.cons_append]
    rw [show replaceFirst (c :: (w ++ rest)) "endNode".data repl =
      if "endNode".data.isPrefixOf (c :: (w ++ rest)) then
        repl ++ (c :: (w ++ rest)).drop "endNode".data.length
      else c :: replaceFirst (w ++ rest) "endNode".data repl from rfl]
    rw [if_neg (by rw [endNode_not_prefix_ws c (h c (List.mem_cons_self c w))]; simp)]
    rw [List.cons_append, List.cons.injEq]
    exact ⟨rfl, replaceFirst_ws_append w rest repl (fun x hx => h x (List.mem_cons_of_mem c hx))⟩

/-- `endNode` does not match on a bare `end` with whitespace tail. -/
theorem endNode_not_prefix_end_ws (w2 : List Char) (h : ∀ c ∈ w2, isJsWs c = true) :
    "endNode".data.isPrefixOf ("end".data ++ w2) = false := by
  rw [Bool.eq_false_iff]
  intro hp
  rcases List.isPrefixOf_iff_prefix.mp hp with ⟨t, ht⟩
  have h3 := congrArg (fun l => l[3]?) ht
  simp only [show "endNode".data = 'e' :: 'n' :: 'd' :: 'N' :: 'o' :: 'd' :: 'e' :: [] from rfl,
    show "end".data = 'e' :: 'n' :: 'd' :: [] from rfl, List.cons_append, List.nil_append,
    List.getElem?_cons_succ, List.getElem?_cons_zero] at h3
  cases w2 with
  | nil => simp at h3
  | cons c w =>
    simp only [List.getElem?_cons_zero, Option.some.injEq] at h3
    have hc : c = 'N' := h3.symm
    subst hc
    exact absurd (h 'N' (List.mem_cons_self _ _)) (by decide)

/-- `replaceFirst` leaves `end` followed by trailing whitespace alone. -/
theorem replaceFirst_end_ws (w2 repl : List Char) (h : ∀ c ∈ w2, isJsWs c = true) :
    replaceFirst ("end".data ++ w2) "endNode".data repl = "end".data ++ w2 := by
  have f1 := endNode_not_prefix_end_ws w2 h
  have f2 : "endNode".data.isPrefixOf ('n' :: 'd' :: w2) = false := by
    simp [List.isPrefixOf]
  have f3 : "endNode".data.isPrefixOf ('d' :: w2) = false := by
    simp [List.isPrefixOf]
  have f4 : replaceFirst w2 "endNode".data repl = w2 := by
    have h4 := replaceFirst_ws_append w2 [] repl h
    simpa [replaceFirst] using h4
  show replaceFirst ('e' :: 'n' :: 'd' :: w2) "endNode".data repl = 'e' :: 'n' :: 'd' :: w2
  rw [show replaceFirst ('e' :: 'n' :: 'd' :: w2) "endNode".data repl =
    if "endNode".data.isPrefixOf ('e' :: 'n' :: 'd' :: w2) then
      repl ++ ('e' :: 'n' :: 'd' :: w2).drop "endNode".data.length
    else 'e' :: replaceFirst ('n' :: 'd' :: w2) "endNode".data repl from rfl]
  rw [if_neg (by rw [show ('e' :: 'n' :: 'd' :: w2) = "end".data ++ w2 from rfl, f1]; simp)]
  rw [show replaceFirst ('n' :: 'd' :: w2) "endNode".data repl =
    if "endNode".data.isPrefixOf ('n' :: 'd' :: w2) then
      repl ++ ('n' :: 'd' :: w2).drop "endNode".data.length
    else 'n' :: replaceFirst ('d' :: w2) "endNode".data repl from rfl]
  rw [if_neg (by rw [f2]; simp)]
  rw [show replaceFirst ('d' :: w2) "endNode".data repl =
    if "endNode".data.isPrefixOf ('d' :: w2) then
      repl ++ ('d' :: w2).drop "endNode".data.length
    else 'd' :: replaceFirst w2 "endNode".data repl from rfl]
  rw [if_neg (by rw [f3]; simp), f4]

/-- `replaceFirst` rewrites a leading `endNode` to `end`. -/
theorem replaceFirst_endNode_ws (w2 : List Char) :
    replaceFirst ("endNode".data ++ w2) "endNode".data "end".data = "end".data ++ w2 := by
  have hp : "endNode".data.isPrefixOf ("endNode".data ++ w2) = true :=
    List.isPrefixOf_iff_prefix.mpr (List.prefix_append _ _)
  rw [show ("endNode".data ++ w2 : List Char) = 'e' :: ("ndNode".data ++ w2) from rfl]
  rw [show replaceFirst ('e' :: ("ndNode".data ++ w2)) "endNode".data "end".data =
    if "endNode".data.isPrefixOf ('e' :: ("ndNode".data ++ w2)) then
      "end".data ++ ('e' :: ("ndNode".data ++ w2)).drop "endNode".data.length
    else 'e' :: replaceFirst ("ndNode".data ++ w2) "endNode".data "end".data from rfl]
  rw [if_pos (by rw [show ('e' :: ("ndNode".data ++ w2) : List Char) =
    "endNode".data ++ w2 from rfl]; exact hp)]
  rfl

/-- The line a closing `end`/`endNode` closer is rewritten to always trims
to `end`. -/
theorem closer_replace (l : List Char)
    (h : jsTrim l = "end".data ∨ jsTrim l = "endNode".data) :
    jsTrim (replaceFirst l "endNode".data "end".data) = "end".data := by
  rcases trim_decomp l with ⟨w1, w2, hl, hw1, hw2⟩
  rw [List.append_assoc] at hl
  rcases h with h | h
  · rw [h] at hl
    rw [hl, replaceFirst_ws_append w1 _ _ hw1, replaceFirst_end_ws w2 _ hw2,
      ← List.append_assoc]
    exact jsTrim_ws_end_ws w1 w2 hw1 hw2
  · rw [h] at hl
    rw [hl, replaceFirst_ws_append w1 _ _ hw1, replaceFirst_endNode_ws w2,
      ← List.append_assoc]
    exact jsTrim_ws_end_ws w1 w2 hw1 hw2

/-- One `satRun` step on an opener line. -/
theorem satRun_cons_opener (x : List Char) (out : List (List Char)) (s : Nat)
    (h : "subgraph".data.isPrefixOf (jsTrim x) = true) :
    satRun s (x :: out) = satRun (s + 1) out := by
  simp [satRun, h]

/-- One `satRun` step on a closer line. -/
theorem satRun_cons_closer (x : List Char) (out : List (List Char)) (s : Nat)
    (h1 : "subgraph".data.isPrefixOf (jsTrim x) = false) (h2 : jsTrim x = "end".data) :
    satRun s (x :: out) = satRun (s - 1) out := by
  simp [satRun, h1, h2]

/-- One `satRun` step on a neutral line. -/
theorem satRun_cons_other (x : List Char) (out : List (List Char)) (s : Nat)
    (h1 : "subgraph".data.isPrefixOf (jsTrim x) = false) (h2 : jsTrim x ≠ "end".data) :
    satRun s (x :: out) = satRun s out := by
  simp [satRun, h1, h2]

/-- A successful `matchNodeStart` returns a non-empty all-word-character
prefix of the line. -/
theorem matchNodeStart_props (t id : List Char) (h : matchNodeStart t = some id) :
    (∀ c ∈ id, isWordChar c = true) ∧ id <+: t := by
  simp only [matchNodeStart, List.span_eq_take_drop] at h
  by_cases hw : t.takeWhile isWordChar = []
  · rw [if_pos hw] at h
    exact absurd h (by simp)
  · rw [if_neg hw] at h
    have hid : id = t.takeWhile isWordChar := by
      split at h
      · exact (Option.some.inj h).symm
      · exact (Option.some.inj h).symm
      · exact (Option.some.inj h).symm
      · exact absurd h (by simp)
    subst hid
    exact ⟨fun c hc => List.mem_takeWhile_imp hc, List.takeWhile_prefix _⟩

/-- The line pass keeps the running open-group count above the number of
closers it will still need: starting `satRun` at `s ≤ d` over the emitted
lines never drives the saturating counter above the returned residual
depth. -/
theorem subgraphPassGo_bound (defined : List (List Char)) :
    ∀ (lines : List (List Char)) (d s : Nat) (insg : Bool),
      insg = decide (0 < d) → s ≤ d →
      satRun s (subgraphPassGo defined lines d insg).1 ≤
        (subgraphPassGo defined lines d insg).2
  | [], d, s, insg, _, hs => by
    simpa [subgraphPassGo, satRun] using hs
  | l :: rest, d, s, insg, hinsg, hs => by
    by_cases hsg : "subgraph".data.isPrefixOf (jsTrim l) = true
    · have heq : subgraphPassGo defined (l :: rest) d insg =
          (l :: (subgraphPassGo defined rest (d + 1) true).1,
            (subgraphPassGo defined rest (d + 1) true).2) := by
        simp [subgraphPassGo, hsg]
      rw [heq, satRun_cons_opener l _ s hsg]
      exact subgraphPassGo_bound defined rest (d + 1) (s + 1) true (by simp)
        (Nat.succ_le_succ hs)
    · have hsg' : "subgraph".data.isPrefixOf (jsTrim l) = false := by
        cases hb : "subgraph".data.isPrefixOf (jsTrim l) with
        | false => rfl
        | true => exact absurd hb hsg
      by_cases hend : jsTrim l = "end".data ∨ jsTrim l = "endNode".data
      · have hendb : (decide (jsTrim l = "end".data) ||
            decide (jsTrim l = "endNode".data)) = true := by
          rcases hend with h | h <;> simp [h]
        by_cases hcl : (insg && decide (0 < d)) = true
        · have heq : subgraphPassGo defined (l :: rest) d insg =
              (replaceFirst l "endNode".data "end".data ::
                  (subgraphPassGo defined rest (d - 1) (decide (0 < d - 1))).1,
                (subgraphPassGo defined rest (d - 1) (decide (0 < d - 1))).2) := by
            simp [subgraphPassGo, hsg', hendb, hcl]
          have htr : jsTrim (replaceFirst l "endNode".data "end".data) = "end".data :=
            closer_replace l hend
          have hpr : "subgraph".data.isPrefixOf
              (jsTrim (replaceFirst l "endNode".data "end".data)) = false := by
            rw [htr]; decide
          rw [heq, satRun_cons_closer _ _ s hpr htr]
          exact subgraphPassGo_bound defined rest (d - 1) (s - 1) _ rfl
            (Nat.sub_le_sub_right hs 1)
        · have hclf : (insg && decide (0 < d)) = false := by simpa using hcl
          have heq : subgraphPassGo defined (l :: rest) d insg =
              (l :: (subgraphPassGo defined rest d insg).1,
                (subgraphPassGo defined rest d insg).2) := by
            simp [subgraphPassGo, hsg', hendb, hclf]
          rw [heq]
          rcases hend with h | h
          · rw [satRun_cons_closer l _ s hsg' h]
            exact subgraphPassGo_bound defined rest d (s - 1) insg hinsg
              (le_trans (Nat.sub_le s 1) hs)
          · have hne : jsTrim l ≠ "end".data := by rw [h]; decide
            rw [satRun_cons_other l _ s hsg' hne]
            exact subgraphPassGo_bound defined rest d s insg hinsg hs
      · have hendb : (decide (jsTrim l = "end".data) ||
            decide (jsTrim l = "endNode".data)) = false := by
          push_neg at hend
          simp [hend.1, hend.2]
        have hne : jsTrim l ≠ "end".data := fun hx => hend (Or.inl hx)
        rcases hm : matchNodeStart (jsTrim l) with _ | id
        · have heq : subgraphPassGo defined (l :: rest) d insg =
              (l :: (subgraphPassGo defined rest d insg).1,
                (subgraphPassGo defined rest d insg).2) := by
            simp [subgraphPassGo, hsg', hendb, hm]
          rw [heq, satRun_cons_other l _ s hsg' hne]
          exact subgraphPassGo_bound defined rest d s insg hinsg hs
        · obtain ⟨hword, hpref⟩ := matchNodeStart_props _ _ hm
          by_cases hin : (insg && defined.contains id) = true
          · have hia : insg = true ∧ id ∈ defined := by simpa using hin
            have hi1 := hia.1
            have hmem := hia.2
            have heq : subgraphPassGo defined (l :: rest) d insg =
                (id :: (subgraphPassGo defined rest d insg).1,
                  (subgraphPassGo defined rest d insg).2) := by
              simp [subgraphPassGo, hsg', hendb, hm, hin]
              intro hcon
              exact absurd hmem (hcon hi1)
            have htid : jsTrim id = id :=
              jsTrim_eq_self_of_no_ws id (fun c hc => word_not_ws c (hword c hc))
            have hidp : "subgraph".data.isPrefixOf (jsTrim id) = false := by
              rw [htid]
              cases hb : "subgraph".data.isPrefixOf id with
              | false => rfl
              | true =>
                have h2 : "subgraph".data <+: jsTrim l :=
                  (List.isPrefixOf_iff_prefix.mp hb).trans hpref
                rw [List.isPrefixOf_iff_prefix.mpr h2] at hsg'
                exact Bool.noConfusion hsg'
            rw [heq]
            by_cases hide : jsTrim id = "end".data
            · rw [satRun_cons_closer id _ s hidp hide]
              exact subgraphPassGo_bound defined rest d (s - 1) insg hinsg
                (le_trans (Nat.sub_le s 1) hs)
            · rw [satRun_cons_other id _ s hidp hide]
              exact subgraphPassGo_bound defined rest d s insg hinsg hs
          · have hinf : (insg && defined.contains id) = false := by simpa using hin
            have heq : subgraphPassGo defined (l :: rest) d insg =
                (l :: (subgraphPassGo defined rest d insg).1,
                  (subgraphPassGo defined rest d insg).2) := by
              simp [subgraphPassGo, hsg', hendb, hm, hinf]
              intro hi hmem
              rw [hi] at hinf
              simp at hinf
              exact absurd hmem hinf
            rw [heq, satRun_cons_other l _ s hsg' hne]
            exact subgraphPassGo_bound defined rest d s insg hinsg hs

/-- `satRun` over a concatenation threads the running counter. -/
theorem satRun_append (L1 L2 : List (List Char)) :
    ∀ s, satRun s (L1 ++ L2) = satRun (satRun s L1) L2 := by
  induction L1 with
  | nil => intro s; simp [satRun]
  | cons x xs ih =>
    intro s
    by_cases h1 : "subgraph".data.isPrefixOf (jsTrim x) = true
    · rw [List.cons_append, satRun_cons_opener x _ s h1,
        satRun_cons_opener x xs s h1, ih]
    · have h1' : "subgraph".data.isPrefixOf (jsTrim x) = false := by
        cases hb : "subgraph".data.isPrefixOf (jsTrim x) with
        | false => rfl
        | true => exact absurd hb h1
      by_cases h2 : jsTrim x = "end".data
      · rw [List.cons_append, satRun_cons_closer x _ s h1' h2,
          satRun_cons_closer x xs s h1' h2, ih]
      · rw [List.cons_append, satRun_cons_other x _ s h1' h2,
          satRun_cons_other x xs s h1' h2, ih]

/-- A block of bare `end` closer lines drains the counter saturating at zero. -/
theorem satRun_replicate_end :
    ∀ (n k : Nat), satRun k (List.replicate n "end".data) = k - n := by
  intro n
  induction n with
  | zero => intro k; simp [satRun]
  | succ m ih =>
    intro k
    rw [List.replicate_succ, satRun_cons_closer _ _ k (by decide) (by decide), ih]
    omega

/-- C2 (amended): the subgraph line pass plus its appended closers is
stack-balanced — scanning the emitted lines followed by the
`depth`-many appended bare `end` closer lines with a saturating
open-group counter starting at zero ends at zero, and no closer in that
scan meets an empty stack in a way that loses a decrement (the counter
stays at or below the residual depth owed). The caveat versus the
original claim: this balance holds for the line-structured intermediate
form; later regex fixes of the validator can merge an `end` line into a
following line (see the recorded counterexample), so it is not a
postcondition of the final returned string. -/
theorem C2_line_pass_closes_all_groups (defined lines : List (List Char)) :
    satRun 0 ((subgraphPass defined lines).1 ++
      List.replicate (subgraphPass defined lines).2 "end".data) = 0 := by
  rw [satRun_append, satRun_replicate_end]
  have h := subgraphPassGo_bound defined lines 0 0 false (by simp) (le_refl 0)
  simp only [subgraphPass]
  exact Nat.sub_eq_zero_of_le h

/-- Every element the append-if-absent workflow fold produces is either
from the accumulator or a source-tagged workflow entry. -/
theorem wfFold_sub :
    ∀ (l acc : List StepTime), ∀ x ∈ l.foldl (fun acc s =>
        if hasStep acc s.step then acc
        else acc ++ [{ s with source := some "workflow" }]) acc,
      x ∈ acc ∨ ∃ w ∈ l, x = { w with source := some "workflow" }
  | [], _, _, hx => Or.inl hx
  | s :: l, acc, x, hx => by
    simp only [List.foldl_cons] at hx
    rcases wfFold_sub l _ x hx with h | ⟨w, hw, rfl⟩
    · by_cases hh : hasStep acc s.step
      · rw [if_pos hh] at h
        exact Or.inl h
      · rw [if_neg hh] at h
        rcases List.mem_append.mp h with h | h
        · exact Or.inl h
        · exact Or.inr ⟨s, List.mem_cons_self s l, by simpa using h⟩
    · exact Or.inr ⟨w, List.mem_cons_of_mem s hw, rfl⟩

/-- C8: for key-unique inputs, `mergeMetrics` keeps every document step
entry under its key with its minutes, adds a workflow entry exactly when
its key is absent from the document entries, produces a key-unique merged
list whose every key comes from one of the inputs, and recomputes
`totalTimeMinutes` as the sum of `timeMinutes` over the merged list. -/
theorem C8_merge_precedence_and_total
    (wm dm : ProcessMetrics)
    (hdnd : (dm.stepTimes.map (fun (s : StepTime) => s.step)).Nodup)
    (hwnd : (wm.stepTimes.map (fun (s : StepTime) => s.step)).Nodup) :
    (∀ e ∈ dm.stepTimes, ∃ e' ∈ (mergeMetrics (some wm) (some dm)).stepTimes,
        e'.step = e.step ∧ e'.timeMinutes = e.timeMinutes) ∧
    (∀ e ∈ wm.stepTimes, hasStep dm.stepTimes e.step = false →
      ∃ e' ∈ (mergeMetrics (some wm) (some dm)).stepTimes,
        e'.step = e.step ∧ e'.timeMinutes = e.timeMinutes) ∧
    ((mergeMetrics (some wm) (some dm)).stepTimes.map
        (fun (s : StepTime) => s.step)).Nodup ∧
    (∀ e' ∈ (mergeMetrics (some wm) (some dm)).stepTimes,
      (∃ d ∈ dm.stepTimes, d.step = e'.step) ∨
        ∃ w ∈ wm.stepTimes, w.step = e'.step) ∧
    (mergeMetrics (some wm) (some dm)).totalTimeMinutes =
      ((mergeMetrics (some wm) (some dm)).stepTimes.map
        (fun (s : StepTime) => s.timeMinutes)).sum := by
  have hfd : dm.stepTimes.foldl
      (fun acc s => setStep acc { s with source := some "document" }) [] =
      dm.stepTimes.map (fun s => { s with source := some "document" }) := by
    simpa using docFold_eq_map dm.stepTimes [] hdnd (by simp)
  refine ⟨?_, ?_, ?_, ?_, rfl⟩
  · intro e he
    have h1 : { e with source := some "document" } ∈
        dm.stepTimes.map (fun s => { s with source := some "document" }) :=
      List.mem_map.mpr ⟨e, he, rfl⟩
    rw [← hfd] at h1
    have h2 : { e with source := some "document" } ∈
        wm.stepTimes.foldl (fun acc s => if hasStep acc s.step then acc
          else acc ++ [{ s with source := some "workflow" }])
          (dm.stepTimes.foldl
            (fun acc s => setStep acc { s with source := some "document" }) []) :=
      (wfFold_extends wm.stepTimes _).subset h1
    exact ⟨{ e with source := some "document" },
      (List.perm_insertionSort _ _).mem_iff.mpr h2, rfl, rfl⟩
  · intro e he hh
    have hfree : ∀ a ∈ dm.stepTimes.foldl
        (fun acc s => setStep acc { s with source := some "document" }) [],
        a.step ≠ e.step := by
      rw [hfd]
      intro a ha
      rcases List.mem_map.mp ha with ⟨d, hd, rfl⟩
      exact (hasStep_eq_false_iff dm.stepTimes e.step).mp hh d hd
    obtain ⟨e', he', hstep, htime⟩ := wfFold_mem wm.stepTimes _ e he hwnd hfree
    exact ⟨e', (List.perm_insertionSort _ _).mem_iff.mpr he', hstep, htime⟩
  · have hfdn : ((dm.stepTimes.foldl
        (fun acc s => setStep acc { s with source := some "document" }) []).map
        (fun (s : StepTime) => s.step)).Nodup := by
      rw [hfd, List.map_map]
      exact hdnd
    have hbn := wfFold_nodup wm.stepTimes _ hfdn
    exact ((List.perm_insertionSort _ _).map
      (fun (s : StepTime) => s.step)).nodup_iff.mpr hbn
  · intro e' he'
    have hb := (List.perm_insertionSort
      (fun a b => stepSortKey a ≤ stepSortKey b) _).mem_iff.mp he'
    rcases wfFold_sub wm.stepTimes _ e' hb with h | ⟨w, hw, rfl⟩
    · simp only [Option.getD_some] at h
      rw [hfd] at h
      rcases List.mem_map.mp h with ⟨d, hd, rfl⟩
      exact Or.inl ⟨d, hd, rfl⟩
    · exact Or.inr ⟨w, hw, rfl⟩

/-- The spec's document metrics of the merge precedence scenario. -/
def docMetricsC8 : ProcessMetrics :=
  { totalSteps := 1, totalTime := "30 minutes", totalTimeMinutes := 30,
    stepTimes := [{ step := "1", stepName := "Step 1", time := "30 minutes",
                    timeMinutes := 30 }],
    source := "document" }

/-- The spec's workflow metrics of the merge precedence scenario. -/
def wfMetricsC8 : ProcessMetrics :=
  { totalSteps := 2, totalTime := "119 minutes", totalTimeMinutes := 119,
    stepTimes := [{ step := "1", stepName := "Step 1", time := "99 minutes",
                    timeMinutes := 99 },
                  { step := "2", stepName := "Step 2", time := "20 minutes",
                    timeMinutes := 20 }],
    source := "workflow" }

/-- C8 witness: in the spec's scenario the document's step `1` (30 minutes)
survives the merge. -/
theorem C8_witness :
    ∃ e' ∈ (mergeMetrics (some wfMetricsC8) (some docMetricsC8)).stepTimes,
      e'.step = "1" ∧ e'.timeMinutes = 30 := by
  have h := (C8_merge_precedence_and_total wfMetricsC8 docMetricsC8
      (by decide) (by decide)).1
    { step := "1", stepName := "Step 1", time := "30 minutes", timeMinutes := 30 }
    (by simp [docMetricsC8])
  exact h
